import Mathlib

/-!
# ShaderPreprocessor (Cinder-glTF): include resolution

A shallow embedding of `src/src/ShaderPreprocessor.cpp`:

* `sIncludeRegex` and `std::regex_search` on one line (ECMAScript grammar, the
  backtracking matcher that tries the greedy alternative first);
* `ShaderPreprocessor::findFullPath`;
* `ShaderPreprocessor::parseRecursive` with its `while( getline( ... ) )` loop;
* `ShaderPreprocessor::parse`.

Text (`std::string`, the contents of the `stringstream`) is a `List Char`.
`fs::path` is an arbitrary type `P` with decidable equality (the equality
stands for the equivalence `std::set<fs::path>` uses); the operations on it
that the source calls are the fields of `PathOps`.  The filesystem is a pair
of functions, fixed for the duration of one `parse`.

`ENABLE_CACHING` is `0` in the source, so the cache branches are not compiled
and are not part of the embedding; the `Timer` / `CI_LOG_I` lines of `parse`
do not touch the result.
-/

namespace ShaderPreprocessor

/-! ## Text -/

/-- The type of `std::string` values. -/
abbrev Str := List Char

/-! ## Regular expressions: the fragment `sIncludeRegex` is written in -/

/-- One-character pattern items. -/
inductive Atom where
  /-- A literal character such as `#`. -/
  | chr (c : Char)
  /-- A bracket expression such as `[ ]` or `[\"<]`. -/
  | cls (cs : List Char)
  /-- The wildcard `.`. -/
  | dot

/-- The characters `.` does not match in the ECMAScript grammar for `char`
    strings: line feed and carriage return. -/
def isLineTerminator (c : Char) : Bool :=
  c == '\n' || c == '\r'

/-- Whether a one-character item accepts a character. -/
def Atom.test : Atom → Char → Bool
  | .chr c, x => x == c
  | .cls cs, x => cs.contains x
  | .dot, x => !isLineTerminator x

/-- Pattern syntax. -/
inductive Regex where
  /-- The empty pattern. -/
  | eps
  /-- The assertion `^`. -/
  | bol
  /-- One character. -/
  | one (a : Atom)
  /-- Greedy `a*`. -/
  | star (a : Atom)
  /-- Greedy `a+`. -/
  | plus (a : Atom)
  /-- The (single) capture group `( r )`. -/
  | group (r : Regex)
  /-- Concatenation. -/
  | seq (r s : Regex)

/-- Concatenation of a list of patterns. -/
def Regex.cat (rs : List Regex) : Regex :=
  rs.foldr Regex.seq Regex.eps

/-- The literal text `s`. -/
def Regex.lit (s : Str) : Regex :=
  Regex.cat (s.map fun c => Regex.one (Atom.chr c))

/-- Greedy repetition of a one-character item, by backtracking: the longest
    run is tried first, and one character is given back each time the
    continuation `k` fails.  `pos` is the offset in the line, `rest` what is
    left of it. -/
def matchStar {R : Type} (a : Atom) (k : Nat → Str → Option R) : Nat → Str → Option R
  | pos, [] => k pos []
  | pos, c :: cs =>
    if a.test c then
      match matchStar a k (pos + 1) cs with
      | some r => some r
      | none => k pos (c :: cs)
    else k pos (c :: cs)

/-- The backtracking matcher in continuation-passing style.  `cap` is the text
    of capture group 1 so far. `^` matches at offset `0` only (the pattern is
    compiled without `multiline`). -/
def Regex.run {R : Type} : Regex → (Nat → Str → Option Str → Option R) →
    Nat → Str → Option Str → Option R
  | .eps, k, pos, rest, cap => k pos rest cap
  | .bol, k, pos, rest, cap => if pos = 0 then k pos rest cap else none
  | .one a, k, pos, rest, cap =>
    match rest with
    | c :: cs => if a.test c then k (pos + 1) cs cap else none
    | [] => none
  | .star a, k, pos, rest, cap => matchStar a (fun p r => k p r cap) pos rest
  | .plus a, k, pos, rest, cap =>
    match rest with
    | c :: cs => if a.test c then matchStar a (fun p r => k p r cap) (pos + 1) cs else none
    | [] => none
  | .group r, k, pos, rest, cap =>
    r.run (fun p r' _ => k p r' (some (rest.take (p - pos)))) pos rest cap
  | .seq r s, k, pos, rest, cap => r.run (s.run k) pos rest cap

/-- The continuation at the end of the pattern: the match is complete and
    `matches[1].str()` is the text of group 1. -/
def acceptMatch (_pos : Nat) (_rest : Str) (cap : Option Str) : Option Str :=
  some (cap.getD [])

/-- The loop of `std::regex_search` over the start offsets, leftmost first. -/
def searchFrom (re : Regex) : Nat → Str → Option Str
  | pos, [] => re.run acceptMatch pos [] none
  | pos, c :: cs =>
    match re.run acceptMatch pos (c :: cs) none with
    | some m => some m
    | none => searchFrom re (pos + 1) cs

/-- The call `regex_search( line, matches, re )`: `none` when it returns
    false, `some (matches[1].str())` when it returns true. -/
def regex_search (line : Str) (re : Regex) : Option Str :=
  searchFrom re 0 line

/-- The pattern `^[ ]*#[ ]*include[ ]+[\"<](.*)[\">].*`. -/
def sIncludeRegex : Regex :=
  Regex.cat
    [ Regex.bol,
      Regex.star (Atom.cls [' ']),
      Regex.one (Atom.chr '#'),
      Regex.star (Atom.cls [' ']),
      Regex.lit "include".toList,
      Regex.plus (Atom.cls [' ']),
      Regex.one (Atom.cls ['"', '<']),
      Regex.group (Regex.star Atom.dot),
      Regex.one (Atom.cls ['"', '>']),
      Regex.star Atom.dot ]

/-! ## Paths, the filesystem, the exception -/

/-- The operations of `fs::path` the source uses. -/
structure PathOps (P : Type) where
  /-- The default-constructed `fs::path()`. -/
  empty : P
  /-- The conversion from `std::string` (applied to `matches[1].str()`). -/
  ofString : Str → P
  /-- The member `string()`. -/
  string : P → Str
  /-- The operator `/`: `join parent p` is `parent / p`. -/
  join : P → P → P
  /-- The member `parent_path()`. -/
  parent_path : P → P

/-- The filesystem as `findFullPath` and `parseRecursive` see it. -/
structure FileSystem (P : Type) where
  /-- The predicate `fs::exists`. -/
  fs_exists : P → Bool
  /-- Opening an `ifstream` and reading it with `getline` to the end: `none`
      when `is_open()` is false, else the lines `getline` delivers. -/
  ifstream : P → Option (List Str)

/-- The exception `ShaderPreprocessorExc`, with its message. -/
structure ShaderPreprocessorExc where
  /-- The message the exception is constructed with. -/
  what : Str
  deriving DecidableEq, Repr

/-- The exception thrown by the cycle check of `parseRecursive`. -/
def circularExc {P : Type} (ops : PathOps P) (path : P) : ShaderPreprocessorExc :=
  ⟨"circular include found, path: ".toList ++ ops.string path⟩

/-- The exception thrown by `parseRecursive` when the stream is not open. -/
def openExc {P : Type} (ops : PathOps P) (fullPath : P) : ShaderPreprocessorExc :=
  ⟨"Failed to open file at path: ".toList ++ ops.string fullPath⟩

/-- The exception thrown at the end of `findFullPath`. -/
def notFoundExc {P : Type} (ops : PathOps P) (path : P) : ShaderPreprocessorExc :=
  ⟨"could not find shader with include path: ".toList ++ ops.string path⟩

/-- Filesystem accesses, recorded in the order they are made (a ghost record:
    it has no influence on any result). -/
inductive Event (P : Type) where
  /-- A call `fs::exists( p )`. -/
  | probe (p : P)
  /-- The construction `ifstream input( p )`. -/
  | openFile (p : P)
  deriving DecidableEq, Repr

/-- The mutable state of one `parse`: the `set<fs::path> includeTree` passed
    by reference, and the record of filesystem accesses. -/
structure State (P : Type) where
  /-- The set `includeTree`. -/
  includeTree : List P
  /-- The accesses made so far, oldest first. -/
  log : List (Event P)
  deriving Repr

/-! ## `findFullPath` -/

/-- The range-for loop of `findFullPath` over `mSearchPaths`, with the final
    `throw`.  The second component lists the calls of `fs::exists`. -/
def findInSearchPaths {P : Type} (ops : PathOps P) (fs : FileSystem P) (path : P) :
    List P → Except ShaderPreprocessorExc P × List (Event P)
  | [] => (.error (notFoundExc ops path), [])
  | searchPath :: more =>
    let fullPath := ops.join searchPath path
    if fs.fs_exists fullPath then (.ok fullPath, [Event.probe fullPath])
    else
      let r := findInSearchPaths ops fs path more
      (r.1, Event.probe fullPath :: r.2)

/-- The method `ShaderPreprocessor::findFullPath( path, parentPath )`; the
    second component lists the calls of `fs::exists` it made. -/
def findFullPath {P : Type} (ops : PathOps P) (fs : FileSystem P) (mSearchPaths : List P)
    (path parentPath : P) : Except ShaderPreprocessorExc P × List (Event P) :=
  let fullPath := ops.join parentPath path
  if fs.fs_exists fullPath then (.ok fullPath, [Event.probe fullPath])
  else
    let r := findInSearchPaths ops fs path mSearchPaths
    (r.1, Event.probe fullPath :: r.2)

/-! ## `parseRecursive` and `parse` -/

/-- The text `output << "#line " << lineNumber << endl` writes. -/
def lineMarker (lineNumber : Nat) : Str :=
  "#line ".toList ++ Nat.toDigits 10 lineNumber ++ ['\n']

/-- The result of a call that may throw, together with the state it leaves;
    `none` stands for a recursion that was cut off by the fuel bound. -/
abbrev Outcome (P : Type) := Option (Except ShaderPreprocessorExc Str × State P)

/-- The loop `while( getline( input, line ) )` of `parseRecursive`.
    `recurse p st` is the recursive call
    `parseRecursive( p, fullPath.parent_path(), includeTree )`.
    `lineNumber` is the `size_t` counter (a file has fewer than `2^64`
    lines, so it does not wrap); `output` is the `stringstream`. -/
def whileGetline {P : Type} (ops : PathOps P) (recurse : P → State P → Outcome P) :
    List Str → Nat → Str → State P → Outcome P
  | [], _, output, st => some (.ok output, st)
  | line :: more, lineNumber, output, st =>
    match regex_search line sIncludeRegex with
    | some m =>
      match recurse (ops.ofString m) st with
      | none => none
      | some (.error e, st1) => some (.error e, st1)
      | some (.ok text, st1) =>
        whileGetline ops recurse more (lineNumber + 1)
          (output ++ text ++ lineMarker lineNumber ++ ['\n']) st1
    | none =>
      whileGetline ops recurse more (lineNumber + 1) (output ++ line ++ ['\n']) st

/-- The method `ShaderPreprocessor::parseRecursive( path, parentPath,
    includeTree )`.  Each level of recursion uses one unit of `fuel`. -/
def parseRecursive {P : Type} [DecidableEq P] (ops : PathOps P) (fs : FileSystem P)
    (mSearchPaths : List P) : Nat → P → P → State P → Outcome P
  | 0, _, _, _ => none
  | fuel + 1, path, parentPath, st =>
    if path ∈ st.includeTree then
      some (.error (circularExc ops path), st)
    else
      let st1 : State P := { st with includeTree := st.includeTree.insert path }
      match findFullPath ops fs mSearchPaths path parentPath with
      | (.error e, probes) => some (.error e, { st1 with log := st1.log ++ probes })
      | (.ok fullPath, probes) =>
        let st2 : State P := { st1 with log := st1.log ++ probes ++ [Event.openFile fullPath] }
        match fs.ifstream fullPath with
        | none => some (.error (openExc ops fullPath), st2)
        | some lines =>
          whileGetline ops
            (fun p s => parseRecursive ops fs mSearchPaths fuel p (ops.parent_path fullPath) s)
            lines 1 [] st2

/-- The state `parse` starts from: `set<fs::path> includeTree;`. -/
def initState (P : Type) : State P :=
  { includeTree := [], log := [] }

/-- The method `ShaderPreprocessor::parse( path )`. -/
def parse {P : Type} [DecidableEq P] (ops : PathOps P) (fs : FileSystem P)
    (mSearchPaths : List P) (fuel : Nat) (path : P) : Outcome P :=
  parseRecursive ops fs mSearchPaths fuel path ops.empty (initState P)

/-! ## A concrete path type and filesystem, for examples -/

/-- Paths as plain text, `/`-separated. -/
def textPaths : PathOps Str where
  empty := []
  ofString := fun s => s
  string := fun p => p
  join := fun parent p => if parent = [] then p else parent ++ '/' :: p
  parent_path := fun p => (p.reverse.dropWhile (fun c => c != '/')).drop 1 |>.reverse

/-- A filesystem given by a table of readable files. -/
def tableFS (files : List (Str × List Str)) : FileSystem Str where
  fs_exists := fun p => (files.lookup p).isSome
  ifstream := fun p => files.lookup p

deriving instance DecidableEq for Except

/-! ## Vocabulary of the statements -/

/-- The lines of a text, each followed by one line terminator. -/
def withTerminators : List Str → Str
  | [] => []
  | line :: more => line ++ '\n' :: withTerminators more

/-- The paths opened, in order, according to an access record. -/
def opened {P : Type} : List (Event P) → List P
  | [] => []
  | Event.openFile p :: es => p :: opened es
  | Event.probe _ :: es => opened es

/-- The state in which the lines of a file are read: `path` has been inserted
    into `includeTree`, and `events` (the lookups of `findFullPath`, then the
    opening of the file) have been made. -/
def entered {P : Type} [DecidableEq P] (st : State P) (path : P) (events : List (Event P)) :
    State P :=
  { includeTree := st.includeTree.insert path, log := st.log ++ events }

/-- The directory in which the includes of the `i`-th file of a chain are
    looked up first: none (`fs::path()`) for the root, else the directory of
    the resolved location `L (i - 1)` of the including file. -/
def parentDirOf {P : Type} (ops : PathOps P) (L : Nat → P) : Nat → P
  | 0 => ops.empty
  | i + 1 => ops.parent_path (L i)

/-- The distinct include-path strings that occur in the files `files`: the
    strings captured by `sIncludeRegex` on their lines. -/
def includeStrings {P : Type} (fs : FileSystem P) (files : List P) : List Str :=
  (files.flatMap fun f =>
    ((fs.ifstream f).getD []).filterMap fun l => regex_search l sIncludeRegex).dedup

/-- The step from the state before a call, or before a run of the loop, to
    the state after it, with all paths drawn from `U`: `includeTree` has only
    grown, it is within `U` and without repetition, and no more files were
    opened than paths were added. -/
def Step {P : Type} (U : List P) (st st' : State P) : Prop :=
  st.includeTree ⊆ st'.includeTree ∧ st'.includeTree ⊆ U ∧ st'.includeTree.Nodup ∧
    (opened st'.log).length + st.includeTree.length
      ≤ (opened st.log).length + st'.includeTree.length

/-- One activation of `parseRecursive`: its fuel, its arguments and the state
    it is entered with. -/
structure Call (P : Type) where
  /-- The fuel of the activation. -/
  fuel : Nat
  /-- The argument `path`. -/
  path : P
  /-- The argument `parentPath`. -/
  parentPath : P
  /-- The state on entry. -/
  st : State P

/-- The outcome of an activation. -/
def Call.run {P : Type} [DecidableEq P] (ops : PathOps P) (fs : FileSystem P) (sp : List P)
    (c : Call P) : Outcome P :=
  parseRecursive ops fs sp c.fuel c.path c.parentPath c.st

/-- The activation `inner` is the recursive call that `outer` makes for an
    include directive `inc` of its file: `outer` passed the cycle check,
    resolved and opened its file, processed the lines `pre` before the
    directive without exception (accumulating the text `a`), and calls
    `parseRecursive` for the captured path in the state reached. -/
def Encloses {P : Type} [DecidableEq P] (ops : PathOps P) (fs : FileSystem P) (sp : List P)
    (outer inner : Call P) : Prop :=
  outer.path ∉ outer.st.includeTree ∧
  ∃ (fullPath : P) (pre post : List Str) (inc m a : Str),
    (findFullPath ops fs sp outer.path outer.parentPath).1 = .ok fullPath ∧
    fs.ifstream fullPath = some (pre ++ inc :: post) ∧
    regex_search inc sIncludeRegex = some m ∧
    outer.fuel = inner.fuel + 1 ∧
    whileGetline ops
        (fun p s => parseRecursive ops fs sp inner.fuel p (ops.parent_path fullPath) s)
        pre 1 []
        (entered outer.st outer.path
          ((findFullPath ops fs sp outer.path outer.parentPath).2
            ++ [Event.openFile fullPath]))
      = some (.ok a, inner.st) ∧
    inner.path = ops.ofString m ∧
    inner.parentPath = ops.parent_path fullPath

/-- The line made of the gap `g1`, `#`, the gap `g2`, `include`, the gap
    `g3`, the opening delimiter `o`, the path `p`, the closing delimiter `c`
    and the trailing text `t`. -/
def directiveLine (g1 g2 g3 : Str) (o : Char) (p : Str) (c : Char) (t : Str) : Str :=
  g1 ++ '#' :: (g2 ++ ("include".toList ++ (g3 ++ o :: (p ++ c :: t))))

/-- The filesystem `fs` in which the file at `F` is readable and has the
    lines `lines`. -/
def withFile {P : Type} [DecidableEq P] (fs : FileSystem P) (F : P) (lines : List Str) :
    FileSystem P where
  fs_exists := fs.fs_exists
  ifstream := fun p => if p = F then some lines else fs.ifstream p

/-- Two lines that the loop cannot tell apart: the pattern gives the same
    result on both, and when it does not match them they are equal. -/
def SameDirective (a b : Str) : Prop :=
  regex_search a sIncludeRegex = regex_search b sIncludeRegex ∧
    (regex_search a sIncludeRegex = none → a = b)

/-- Splitting a text at its line feeds; `cur` is the line read so far. -/
def splitAux (cur : Str) : Str → List Str
  | [] => if cur = [] then [] else [cur]
  | c :: cs => if c = '\n' then cur :: splitAux [] cs else splitAux (cur ++ [c]) cs

/-- The lines of an output text. -/
def textLines (text : Str) : List Str :=
  splitAux [] text

/-- The value of a decimal digit. -/
def digitValue (c : Char) : Option Nat :=
  if '0' ≤ c ∧ c ≤ '9' then some (c.toNat - 48) else none

/-- The number written by a non-empty run of decimal digits. -/
def decimalValue (s : Str) : Option Nat :=
  if s = [] then none
  else s.foldl (fun acc c => acc.bind fun a => (digitValue c).map fun d => 10 * a + d) (some 0)

/-- The number `N` of a line of the form `#line N`. -/
def markerNumber (line : Str) : Option Nat :=
  if "#line ".toList.isPrefixOf line then decimalValue (line.drop 6) else none

/-- The numbering convention: `n` being the number of the first of the lines
    `ls`, the number of the line after them.  The line that follows a line
    `#line N` is numbered `N`, every other line one more than the line before
    it. -/
def numberAfter : Nat → List Str → Nat
  | n, [] => n
  | n, l :: ls =>
    match markerNumber l with
    | some N => numberAfter N ls
    | none => numberAfter (n + 1) ls

/-- The number of the output line that starts right after the text `text`,
    the first line of the output being numbered 1. -/
def lineNumberAfter (text : Str) : Nat :=
  numberAfter 1 (textLines text)

/-- A text that is empty or ends with a line feed: what follows it starts a
    new line. -/
def AtLineStart (text : Str) : Prop :=
  text = [] ∨ ∃ t, text = t ++ ['\n']

/-! ## Example filesystems -/

/-- The directive line `#include "lib.glsl"`. -/
def includeLib : Str := "#include \"lib.glsl\"".toList

/-- The root of the end-to-end example: `a`, the directive, `b`. -/
def mainLines : List Str := ["a".toList, includeLib, "b".toList]

/-- Both files side by side: `main.glsl` and `lib.glsl`. -/
def fsBeside : FileSystem Str :=
  tableFS [("main.glsl".toList, mainLines), ("lib.glsl".toList, ["c".toList]),
    ("assets/lib.glsl".toList, ["d".toList])]

/-- The included file only in the search directory `assets`. -/
def fsSearch : FileSystem Str :=
  tableFS [("main.glsl".toList, mainLines), ("assets/lib.glsl".toList, ["d".toList]),
    ("more/lib.glsl".toList, ["e".toList])]

/-- A root with two directives: `x`, `#include "lib.glsl"`, `y`,
    `#include "two.glsl"`, `z`; `two.glsl` has the lines `p`, `q`, `r`. -/
def fsMarkers : FileSystem Str :=
  tableFS [("root.glsl".toList,
      ["x".toList, includeLib, "y".toList, "#include <two.glsl>".toList, "z".toList]),
    ("lib.glsl".toList, ["c".toList]),
    ("two.glsl".toList, ["p".toList, "q".toList, "r".toList])]

/-- A file without directives (one line is a commented-out include), beside
    other files. -/
def fsPlain : FileSystem Str :=
  tableFS [("plain.glsl".toList, ["void main()".toList, "// #include \"lib.glsl\"".toList, [],
      "#line 7".toList]),
    ("lib.glsl".toList, ["c".toList]), ("empty.glsl".toList, [])]

/-- The names of four files that include each other in a ring. -/
def ringNames : List Str :=
  ["a.glsl".toList, "b.glsl".toList, "c.glsl".toList, "d.glsl".toList]

/-- The lines before the directive in each file of the ring. -/
def ringPre : List (List Str) :=
  [["// a".toList], [], ["// c".toList, "// #include \"a.glsl\"".toList], []]

/-- The directive of each file of the ring. -/
def ringInc : List Str :=
  ["#include \"b.glsl\"".toList, "#include <c.glsl>".toList, "  #include \"d.glsl\"".toList,
    "#include \"a.glsl\"".toList]

/-- The lines after the directive in each file of the ring. -/
def ringPost : List (List Str) :=
  [["void main()".toList], ["#include \"d.glsl\"".toList], [], ["x".toList]]

/-- The table of the four files of the ring. -/
def ringTable : List (Str × List Str) :=
  (List.range 4).map fun i =>
    (ringNames.getD i [], ringPre.getD i [] ++ ringInc.getD i [] :: ringPost.getD i [])

/-- Four files in one directory: `a` includes `b`, `b` includes `c`, `c`
    includes `d`, `d` includes `a`. -/
def fsRing : FileSystem Str :=
  tableFS ringTable

/-- A root that includes the directive-free `lib.glsl` on two separate
    lines. -/
def fsTwice : FileSystem Str :=
  tableFS [("twice.glsl".toList, [includeLib, "m".toList, includeLib]),
    ("lib.glsl".toList, ["c".toList])]

/-- A root whose second directive names a file, `nope.glsl`, that is neither
    beside it nor in the search directory `assets`. -/
def fsMissing : FileSystem Str :=
  tableFS [("main.glsl".toList,
      ["d".toList, includeLib, "a".toList, "#include \"nope.glsl\"".toList, "b".toList]),
    ("assets/lib.glsl".toList, ["d".toList])]

/-- A chain of three files: `top.glsl` has two lines and a first directive
    that succeeds before it includes `mid.glsl`, which after one line
    includes `gone.glsl`, which does not exist. -/
def fsNested : FileSystem Str :=
  tableFS [("top.glsl".toList,
      ["t1".toList, includeLib, "t2".toList, "#include \"mid.glsl\"".toList, "t3".toList]),
    ("lib.glsl".toList, ["c".toList]),
    ("mid.glsl".toList, ["m1".toList, "#include <gone.glsl>".toList, "m2".toList])]

/-- The activation of `parse` for `top.glsl`. -/
def callTop : Call Str :=
  { fuel := 3, path := "top.glsl".toList, parentPath := [], st := initState Str }

/-- The activation for `mid.glsl`, made by `callTop`. -/
def callMid : Call Str :=
  { fuel := 2, path := "mid.glsl".toList, parentPath := [],
    st := { includeTree := ["lib.glsl".toList, "top.glsl".toList],
            log := [Event.probe "top.glsl".toList, Event.openFile "top.glsl".toList,
              Event.probe "lib.glsl".toList, Event.openFile "lib.glsl".toList] } }

/-- The activation for `gone.glsl`, made by `callMid`. -/
def callGone : Call Str :=
  { fuel := 1, path := "gone.glsl".toList, parentPath := [],
    st := { includeTree := ["mid.glsl".toList, "lib.glsl".toList, "top.glsl".toList],
            log := [Event.probe "top.glsl".toList, Event.openFile "top.glsl".toList,
              Event.probe "lib.glsl".toList, Event.openFile "lib.glsl".toList,
              Event.probe "mid.glsl".toList, Event.openFile "mid.glsl".toList] } }

/-- A root whose directive is followed by a comment with double quotes. -/
def fsTrailing : FileSystem Str :=
  tableFS [("main.glsl".toList, ["#include \"lib.glsl\" // \"the library\"".toList]),
    ("lib.glsl".toList, ["c".toList])]

/-- An entry state in which `ghost.glsl` is already in `includeTree`. -/
def stGhost : State Str :=
  { includeTree := ["ghost.glsl".toList], log := [] }

/-- The diamond: `A` includes `B` and then `C`; `B` and `C` each include
    `D`; `D` has no include directive. -/
def fsDiamond : FileSystem Str :=
  tableFS [("A.glsl".toList,
      ["// A".toList, "#include \"B.glsl\"".toList, "a".toList, "#include \"C.glsl\"".toList,
        "z".toList]),
    ("B.glsl".toList, ["#include \"D.glsl\"".toList, "b".toList]),
    ("C.glsl".toList, ["c".toList, "#include \"D.glsl\"".toList]),
    ("D.glsl".toList, ["d".toList])]

/-- The file `sub/top.glsl` is found through the search path `assets`; the
    file `lib.glsl` it includes exists in its own directory `assets/sub`, in
    the search path `assets`, and in the working directory. -/
def fsNear : FileSystem Str :=
  tableFS [("assets/sub/top.glsl".toList, ["t".toList, includeLib]),
    ("assets/sub/lib.glsl".toList, ["near".toList]),
    ("assets/lib.glsl".toList, ["far".toList]),
    ("lib.glsl".toList, ["cwd".toList])]

/-- A filesystem in which `locked.glsl` exists but cannot be opened, and
    `main.glsl` includes it. -/
def fsLocked : FileSystem Str where
  fs_exists := fun p => p = "locked.glsl".toList || p = "main.glsl".toList
  ifstream := fun p =>
    if p = "main.glsl".toList then some ["m".toList, "#include \"locked.glsl\"".toList]
    else none

/-- The activation of `parse` for `main.glsl` in `fsLocked`. -/
def callLockedMain : Call Str :=
  { fuel := 2, path := "main.glsl".toList, parentPath := [], st := initState Str }

/-- The state in which `parse` of `main.glsl` in `fsLocked` ends: the opening
    of `locked.glsl` was just tried. -/
def stLockedEnd : State Str :=
  { includeTree := ["locked.glsl".toList, "main.glsl".toList],
    log := [Event.probe "main.glsl".toList, Event.openFile "main.glsl".toList,
      Event.probe "locked.glsl".toList, Event.openFile "locked.glsl".toList] }

/-- The file `a/common.glsl` (found through the search path `a`) includes
    `sub/y.glsl`, which includes `common.glsl`; beside `y.glsl` there is
    another file `a/sub/common.glsl`. -/
def fsCommon : FileSystem Str :=
  tableFS [("a/common.glsl".toList, ["#include \"sub/y.glsl\"".toList]),
    ("a/sub/y.glsl".toList, ["y".toList, "#include \"common.glsl\"".toList]),
    ("a/sub/common.glsl".toList, ["other".toList])]

/-- The state in which the lines of `a/sub/y.glsl` are read in `fsCommon`. -/
def stCommon : State Str :=
  { includeTree := ["sub/y.glsl".toList, "common.glsl".toList],
    log := [Event.probe "common.glsl".toList, Event.probe "a/common.glsl".toList,
      Event.openFile "a/common.glsl".toList, Event.probe "a/sub/y.glsl".toList,
      Event.openFile "a/sub/y.glsl".toList] }

/-- A directory with `main.glsl` (lines to be given by `withFile`) and files
    to include: `x.glsl`, and one whose name has a carriage return in it. -/
def fsBase : FileSystem Str :=
  tableFS [("main.glsl".toList, []), ("x.glsl".toList, ["c".toList]),
    ("a\rb".toList, ["r".toList])]

/-- A root with a line directive of its own. -/
def fsLineDirective : FileSystem Str :=
  tableFS [("main.glsl".toList, ["#line 100".toList, "x".toList])]

/-! ## The loop over the lines -/

theorem withTerminators_append (xs ys : List Str) :
    withTerminators (xs ++ ys) = withTerminators xs ++ withTerminators ys := by
  induction xs with
  | nil => rfl
  | cons x xs ih => simp [withTerminators, ih]

theorem opened_append {P : Type} (xs ys : List (Event P)) :
    opened (xs ++ ys) = opened xs ++ opened ys := by
  induction xs with
  | nil => rfl
  | cons x xs ih => cases x <;> simp [opened, ih]

/-- Lines that are not include directives are copied, each with a terminator,
    and the counter advances by their number. -/
theorem whileGetline_plain {P : Type} (ops : PathOps P) (recurse : P → State P → Outcome P)
    (pre : List Str) (hpre : ∀ l ∈ pre, regex_search l sIncludeRegex = none)
    (more : List Str) (n : Nat) (out : Str) (st : State P) :
    whileGetline ops recurse (pre ++ more) n out st
      = whileGetline ops recurse more (n + pre.length) (out ++ withTerminators pre) st := by
  induction pre generalizing n out with
  | nil => simp [withTerminators]
  | cons l ls ih =>
    have hl : regex_search l sIncludeRegex = none := hpre l (List.mem_cons_self _ _)
    have hls : ∀ x ∈ ls, regex_search x sIncludeRegex = none :=
      fun x hx => hpre x (List.mem_cons_of_mem _ hx)
    rw [List.cons_append, whileGetline, hl]
    simp only []
    rw [ih hls]
    simp [withTerminators, Nat.add_comm, Nat.add_left_comm]

theorem whileGetline_all_plain {P : Type} (ops : PathOps P) (recurse : P → State P → Outcome P)
    (lines : List Str) (h : ∀ l ∈ lines, regex_search l sIncludeRegex = none)
    (n : Nat) (out : Str) (st : State P) :
    whileGetline ops recurse lines n out st = some (.ok (out ++ withTerminators lines), st) := by
  have := whileGetline_plain ops recurse lines h [] n out st
  simpa [whileGetline] using this

/-- An include directive whose expansion succeeds contributes the expansion,
    the marker with the current counter, and one more terminator. -/
theorem whileGetline_include_ok {P : Type} (ops : PathOps P) (recurse : P → State P → Outcome P)
    (line : Str) (m : Str) (hm : regex_search line sIncludeRegex = some m)
    (st st1 : State P) (text : Str) (hrec : recurse (ops.ofString m) st = some (.ok text, st1))
    (more : List Str) (n : Nat) (out : Str) :
    whileGetline ops recurse (line :: more) n out st
      = whileGetline ops recurse more (n + 1) (out ++ text ++ lineMarker n ++ ['\n']) st1 := by
  simp [whileGetline, hm, hrec]

/-- An include directive whose expansion throws: the loop throws the same. -/
theorem whileGetline_include_error {P : Type} (ops : PathOps P)
    (recurse : P → State P → Outcome P)
    (line : Str) (m : Str) (hm : regex_search line sIncludeRegex = some m)
    (st st1 : State P) (e : ShaderPreprocessorExc)
    (hrec : recurse (ops.ofString m) st = some (.error e, st1))
    (more : List Str) (n : Nat) (out : Str) :
    whileGetline ops recurse (line :: more) n out st = some (.error e, st1) := by
  simp [whileGetline, hm, hrec]

/-- The text already in the stream is a prefix of whatever the loop returns. -/
theorem whileGetline_output {P : Type} (ops : PathOps P) (recurse : P → State P → Outcome P)
    (lines : List Str) (n : Nat) (out : Str) (st : State P) :
    whileGetline ops recurse lines n out st
      = (whileGetline ops recurse lines n [] st).map
          (fun r => (r.1.map (fun t => out ++ t), r.2)) := by
  induction lines generalizing n out st with
  | nil => simp [whileGetline, Except.map]
  | cons l ls ih =>
    simp only [whileGetline]
    cases hm : regex_search l sIncludeRegex with
    | none =>
      simp only []
      rw [ih (n + 1) (out ++ l ++ ['\n']), ih (n + 1) ([] ++ l ++ ['\n'])]
      cases whileGetline ops recurse ls (n + 1) [] st with
      | none => rfl
      | some r =>
        obtain ⟨r1, r2⟩ := r
        cases r1 <;> simp [Except.map]
    | some m =>
      simp only []
      cases hr : recurse (ops.ofString m) st with
      | none => rfl
      | some r =>
        obtain ⟨r1, st1⟩ := r
        cases r1 with
        | error e => simp [Except.map]
        | ok text =>
          simp only []
          rw [ih (n + 1) (out ++ text ++ lineMarker n ++ ['\n']),
            ih (n + 1) ([] ++ text ++ lineMarker n ++ ['\n'])]
          cases whileGetline ops recurse ls (n + 1) [] st1 with
          | none => rfl
          | some r =>
            obtain ⟨r1, r2⟩ := r
            cases r1 <;> simp [Except.map]

/-! ## One call of `parseRecursive` -/

theorem parseRecursive_circular {P : Type} [DecidableEq P] (ops : PathOps P)
    (fs : FileSystem P) (sp : List P) (fuel : Nat) (path parentPath : P) (st : State P)
    (h : path ∈ st.includeTree) :
    parseRecursive ops fs sp (fuel + 1) path parentPath st
      = some (.error (circularExc ops path), st) := by
  simp [parseRecursive, h]

theorem parseRecursive_unresolved {P : Type} [DecidableEq P] (ops : PathOps P)
    (fs : FileSystem P) (sp : List P) (fuel : Nat) (path parentPath : P) (st : State P)
    (h : path ∉ st.includeTree) (e : ShaderPreprocessorExc)
    (hf : (findFullPath ops fs sp path parentPath).1 = .error e) :
    parseRecursive ops fs sp (fuel + 1) path parentPath st
      = some (.error e, entered st path (findFullPath ops fs sp path parentPath).2) := by
  rw [parseRecursive, if_neg h]
  have hp : findFullPath ops fs sp path parentPath
      = (.error e, (findFullPath ops fs sp path parentPath).2) := Prod.ext hf rfl
  rw [hp]
  rfl

theorem parseRecursive_unopened {P : Type} [DecidableEq P] (ops : PathOps P)
    (fs : FileSystem P) (sp : List P) (fuel : Nat) (path parentPath : P) (st : State P)
    (h : path ∉ st.includeTree) (fullPath : P)
    (hf : (findFullPath ops fs sp path parentPath).1 = .ok fullPath)
    (ho : fs.ifstream fullPath = none) :
    parseRecursive ops fs sp (fuel + 1) path parentPath st
      = some (.error (openExc ops fullPath),
          entered st path
            ((findFullPath ops fs sp path parentPath).2 ++ [Event.openFile fullPath])) := by
  rw [parseRecursive, if_neg h]
  have hp : findFullPath ops fs sp path parentPath
      = (.ok fullPath, (findFullPath ops fs sp path parentPath).2) := Prod.ext hf rfl
  rw [hp]
  simp [ho, entered]

theorem parseRecursive_lines {P : Type} [DecidableEq P] (ops : PathOps P)
    (fs : FileSystem P) (sp : List P) (fuel : Nat) (path parentPath : P) (st : State P)
    (h : path ∉ st.includeTree) (fullPath : P)
    (hf : (findFullPath ops fs sp path parentPath).1 = .ok fullPath)
    (lines : List Str) (ho : fs.ifstream fullPath = some lines) :
    parseRecursive ops fs sp (fuel + 1) path parentPath st
      = whileGetline ops
          (fun p s => parseRecursive ops fs sp fuel p (ops.parent_path fullPath) s)
          lines 1 []
          (entered st path
            ((findFullPath ops fs sp path parentPath).2 ++ [Event.openFile fullPath])) := by
  rw [parseRecursive, if_neg h]
  have hp : findFullPath ops fs sp path parentPath
      = (.ok fullPath, (findFullPath ops fs sp path parentPath).2) := Prod.ext hf rfl
  rw [hp]
  simp [ho, entered]

/-- A file without include directives expands to its lines. -/
theorem parseRecursive_leaf {P : Type} [DecidableEq P] (ops : PathOps P)
    (fs : FileSystem P) (sp : List P) (fuel : Nat) (path parentPath : P) (st : State P)
    (h : path ∉ st.includeTree) (fullPath : P)
    (hf : (findFullPath ops fs sp path parentPath).1 = .ok fullPath)
    (lines : List Str) (ho : fs.ifstream fullPath = some lines)
    (hplain : ∀ l ∈ lines, regex_search l sIncludeRegex = none) :
    parseRecursive ops fs sp (fuel + 1) path parentPath st
      = some (.ok (withTerminators lines),
          entered st path
            ((findFullPath ops fs sp path parentPath).2 ++ [Event.openFile fullPath])) := by
  rw [parseRecursive_lines ops fs sp fuel path parentPath st h fullPath hf lines ho,
    whileGetline_all_plain ops _ lines hplain]
  simp

/-! ## `findFullPath` -/

theorem findInSearchPaths_first {P : Type} (ops : PathOps P) (fs : FileSystem P) (path : P)
    (sp : List P) (i : Nat) (s : P) (hs : sp[i]? = some s)
    (hex : fs.fs_exists (ops.join s path) = true)
    (hbefore : ∀ j, j < i → ∀ t, sp[j]? = some t → fs.fs_exists (ops.join t path) = false) :
    (findInSearchPaths ops fs path sp).1 = .ok (ops.join s path) := by
  induction sp generalizing i with
  | nil => simp at hs
  | cons a more ih =>
    cases i with
    | zero =>
      simp at hs
      subst hs
      simp [findInSearchPaths, hex]
    | succ i =>
      have ha : fs.fs_exists (ops.join a path) = false := hbefore 0 (Nat.succ_pos i) a (by simp)
      simp only [findInSearchPaths, ha]
      simp only [Bool.false_eq_true, if_false]
      apply ih i (by simpa using hs)
      intro j hj t ht
      exact hbefore (j + 1) (Nat.succ_lt_succ hj) t (by simpa using ht)

theorem findInSearchPaths_none {P : Type} (ops : PathOps P) (fs : FileSystem P) (path : P)
    (sp : List P) (h : ∀ s ∈ sp, fs.fs_exists (ops.join s path) = false) :
    (findInSearchPaths ops fs path sp).1 = .error (notFoundExc ops path) := by
  induction sp with
  | nil => rfl
  | cons a more ih =>
    have ha := h a (List.mem_cons_self _ _)
    simp only [findInSearchPaths, ha]
    simp only [Bool.false_eq_true, if_false]
    exact ih (fun s hs => h s (List.mem_cons_of_mem _ hs))

theorem findInSearchPaths_ok {P : Type} (ops : PathOps P) (fs : FileSystem P) (path : P)
    (sp : List P) (full : P) (h : (findInSearchPaths ops fs path sp).1 = .ok full) :
    ∃ s ∈ sp, fs.fs_exists (ops.join s path) = true ∧ full = ops.join s path := by
  induction sp with
  | nil => simp [findInSearchPaths] at h
  | cons a more ih =>
    by_cases ha : fs.fs_exists (ops.join a path) = true
    · simp [findInSearchPaths, ha] at h
      exact ⟨a, List.mem_cons_self _ _, ha, h.symm⟩
    · simp [findInSearchPaths, ha] at h
      obtain ⟨s, hs, hex, hfull⟩ := ih h
      exact ⟨s, List.mem_cons_of_mem _ hs, hex, hfull⟩

theorem findInSearchPaths_error {P : Type} (ops : PathOps P) (fs : FileSystem P) (path : P)
    (sp : List P) (e : ShaderPreprocessorExc)
    (h : (findInSearchPaths ops fs path sp).1 = .error e) :
    e = notFoundExc ops path ∧ ∀ s ∈ sp, fs.fs_exists (ops.join s path) = false := by
  induction sp with
  | nil =>
    simp [findInSearchPaths] at h
    exact ⟨h.symm, by simp⟩
  | cons a more ih =>
    by_cases ha : fs.fs_exists (ops.join a path) = true
    · simp [findInSearchPaths, ha] at h
    · simp [findInSearchPaths, ha] at h
      obtain ⟨he, hall⟩ := ih h
      refine ⟨he, ?_⟩
      intro s hs
      rcases List.mem_cons.mp hs with rfl | hs
      · simpa using ha
      · exact hall s hs

theorem findFullPath_parent {P : Type} (ops : PathOps P) (fs : FileSystem P) (sp : List P)
    (path parentPath : P) (h : fs.fs_exists (ops.join parentPath path) = true) :
    findFullPath ops fs sp path parentPath
      = (.ok (ops.join parentPath path), [Event.probe (ops.join parentPath path)]) := by
  simp [findFullPath, h]

theorem findFullPath_search {P : Type} (ops : PathOps P) (fs : FileSystem P) (sp : List P)
    (path parentPath : P) (h : fs.fs_exists (ops.join parentPath path) = false) :
    (findFullPath ops fs sp path parentPath).1 = (findInSearchPaths ops fs path sp).1 := by
  simp [findFullPath, h]

/-! ## Path resolution order -/

/-- C1: `findFullPath` returns `d / p` whenever that exists, whatever the
    search paths hold; otherwise it returns `s / p` for the first search path
    `s` (the one of smallest index `i`) such that `s / p` exists.  An include
    directive for `p` read in directory `d`, with no file beside it and such a
    search path, then contributes the lines of the search-directory file
    (here without directives of its own), followed by its marker. -/
theorem findFullPath_resolution_order {P : Type} [DecidableEq P] (ops : PathOps P)
    (fs : FileSystem P) (sp : List P) (p d : P) :
    (fs.fs_exists (ops.join d p) = true →
      (findFullPath ops fs sp p d).1 = .ok (ops.join d p)) ∧
    (∀ (i : Nat) (s : P), sp[i]? = some s →
      fs.fs_exists (ops.join d p) = false →
      fs.fs_exists (ops.join s p) = true →
      (∀ j, j < i → ∀ t, sp[j]? = some t → fs.fs_exists (ops.join t p) = false) →
      (findFullPath ops fs sp p d).1 = .ok (ops.join s p) ∧
      ∀ (body : List Str), fs.ifstream (ops.join s p) = some body →
        (∀ l ∈ body, regex_search l sIncludeRegex = none) →
        ∀ (st : State P), p ∉ st.includeTree →
        ∀ (line m : Str), regex_search line sIncludeRegex = some m → ops.ofString m = p →
        ∀ (fuel : Nat) (more : List Str) (n : Nat) (out : Str),
          whileGetline ops (fun q s => parseRecursive ops fs sp (fuel + 1) q d s)
              (line :: more) n out st
            = whileGetline ops (fun q s => parseRecursive ops fs sp (fuel + 1) q d s)
                more (n + 1) (out ++ withTerminators body ++ lineMarker n ++ ['\n'])
                (entered st p
                  ((findFullPath ops fs sp p d).2 ++ [Event.openFile (ops.join s p)]))) := by
  refine ⟨fun h => ?_, ?_⟩
  · rw [findFullPath_parent ops fs sp p d h]
  · intro i s hs hd hex hbefore
    have hres : (findFullPath ops fs sp p d).1 = .ok (ops.join s p) := by
      rw [findFullPath_search ops fs sp p d hd]
      exact findInSearchPaths_first ops fs p sp i s hs hex hbefore
    refine ⟨hres, ?_⟩
    intro body hbody hplain st hp line m hm hmp fuel more n out
    apply whileGetline_include_ok ops _ line m hm
    rw [hmp]
    exact parseRecursive_leaf ops fs sp fuel p d st hp (ops.join s p) hres body hbody hplain

/-- C1 at concrete inputs: with `lib.glsl` beside the root and in `assets`,
    the one beside the root is chosen; with `lib.glsl` in `assets` and in
    `more` only, search paths `[none, assets, more]` give `assets/lib.glsl`,
    and the directive inlines its line `d`. -/
theorem findFullPath_resolution_order_witness :
    (findFullPath textPaths fsBeside ["assets".toList] "lib.glsl".toList []).1
        = .ok "lib.glsl".toList ∧
    (findFullPath textPaths fsSearch ["none".toList, "assets".toList, "more".toList]
        "lib.glsl".toList []).1 = .ok "assets/lib.glsl".toList ∧
    (whileGetline textPaths
        (fun q s => parseRecursive textPaths fsSearch
          ["none".toList, "assets".toList, "more".toList] 1 q [] s)
        [includeLib] 1 [] (initState Str)).map (fun r => r.1)
      = some (.ok "d\n#line 1\n\n".toList) := by
  refine ⟨?_, ?_, ?_⟩
  · exact (findFullPath_resolution_order textPaths fsBeside ["assets".toList]
      "lib.glsl".toList []).1 (by decide)
  · exact ((findFullPath_resolution_order textPaths fsSearch
      ["none".toList, "assets".toList, "more".toList] "lib.glsl".toList []).2
      1 "assets".toList (by decide) (by decide) (by decide) (by decide)).1
  · rw [((findFullPath_resolution_order textPaths fsSearch
      ["none".toList, "assets".toList, "more".toList] "lib.glsl".toList []).2
      1 "assets".toList (by decide) (by decide) (by decide) (by decide)).2
      ["d".toList] (by decide) (by decide) (initState Str) (by decide)
      includeLib "lib.glsl".toList (by decide) rfl 0 [] 1 []]
    rfl

/-! ## The shape of the output -/

/-- C2, the claim as stated fails: for the root `a`, `#include "lib.glsl"`,
    `b` and `lib.glsl` = `c`, `parse` returns `a`, `c`, `#line 2`, an empty
    line, `b`, which is not the text `a\nc\n#line 2\nb\n`. -/
theorem parse_end_to_end_counterexample :
    (parse textPaths fsBeside [] 2 "main.glsl".toList).map (fun r => r.1)
        = some (.ok "a\nc\n#line 2\n\nb\n".toList) ∧
    (parse textPaths fsBeside [] 2 "main.glsl".toList).map (fun r => r.1)
        ≠ some (.ok "a\nc\n#line 2\nb\n".toList) := by
  constructor
  · rfl
  · decide

/-- C2, amended: a root whose lines are `pre`, an include directive for `p`,
    `post` (no directive in `pre` or `post`), where `p` is not the path the
    root was passed by and resolves to a file whose lines `body` contain no
    directive, is expanded to the lines `pre`, `body`, `#line k` with
    `k = length pre + 1`, one empty line, `post`, each followed by one line
    terminator. -/
theorem parse_single_include {P : Type} [DecidableEq P] (ops : PathOps P)
    (fs : FileSystem P) (sp : List P) (root rootFull libFull : P)
    (pre post body : List Str) (inc p : Str)
    (hroot : (findFullPath ops fs sp root ops.empty).1 = .ok rootFull)
    (hfile : fs.ifstream rootFull = some (pre ++ inc :: post))
    (hpre : ∀ l ∈ pre, regex_search l sIncludeRegex = none)
    (hpost : ∀ l ∈ post, regex_search l sIncludeRegex = none)
    (hinc : regex_search inc sIncludeRegex = some p)
    (hne : ops.ofString p ≠ root)
    (hlib : (findFullPath ops fs sp (ops.ofString p) (ops.parent_path rootFull)).1
      = .ok libFull)
    (hbody : fs.ifstream libFull = some body)
    (hplain : ∀ l ∈ body, regex_search l sIncludeRegex = none)
    (fuel : Nat) (hfuel : 2 ≤ fuel) :
    (parse ops fs sp fuel root).map (fun r => r.1)
      = some (.ok (withTerminators
          (pre ++ body ++ ["#line ".toList ++ Nat.toDigits 10 (pre.length + 1), []]
            ++ post))) := by
  obtain ⟨f, rfl⟩ : ∃ f, fuel = f + 2 := ⟨fuel - 2, by omega⟩
  have hr : root ∉ (initState P).includeTree := by simp [initState]
  rw [parse, parseRecursive_lines ops fs sp (f + 1) root ops.empty (initState P) hr rootFull
    hroot _ hfile, whileGetline_plain ops _ pre hpre]
  have hq : ops.ofString p ∉ (entered (initState P) root
      ((findFullPath ops fs sp root ops.empty).2 ++ [Event.openFile rootFull])).includeTree := by
    simp [entered, initState, hne]
  rw [whileGetline_include_ok ops _ inc p hinc _ _ _
    (parseRecursive_leaf ops fs sp f (ops.ofString p) (ops.parent_path rootFull) _ hq libFull
      hlib body hbody hplain),
    whileGetline_all_plain ops _ post hpost]
  simp [withTerminators_append, withTerminators, lineMarker, Nat.add_comm]

/-- C2, amended, at the end-to-end example of the specification. -/
theorem parse_single_include_witness :
    (parse textPaths fsBeside [] 2 "main.glsl".toList).map (fun r => r.1)
      = some (.ok (withTerminators
          (["a".toList] ++ ["c".toList]
            ++ ["#line ".toList ++ Nat.toDigits 10 (["a".toList].length + 1), []]
            ++ ["b".toList]))) :=
  parse_single_include textPaths fsBeside [] "main.glsl".toList "main.glsl".toList
    "lib.glsl".toList ["a".toList] ["b".toList] ["c".toList] includeLib "lib.glsl".toList
    (by decide) (by decide) (by decide) (by decide) (by decide) (by decide) (by decide)
    (by decide) (by decide) 2 (by decide)

/-- The loop over `xs ++ ys` is the loop over `xs` followed, when that
    returns, by the loop over `ys` with the counter advanced by the length of
    `xs`. -/
theorem whileGetline_append {P : Type} (ops : PathOps P) (recurse : P → State P → Outcome P)
    (xs ys : List Str) (n : Nat) (out : Str) (st : State P) :
    whileGetline ops recurse (xs ++ ys) n out st
      = match whileGetline ops recurse xs n out st with
        | none => none
        | some (.error e, s) => some (.error e, s)
        | some (.ok a, s) => whileGetline ops recurse ys (n + xs.length) a s := by
  induction xs generalizing n out st with
  | nil => simp [whileGetline]
  | cons l ls ih =>
    rw [List.cons_append, whileGetline, whileGetline]
    cases hm : regex_search l sIncludeRegex with
    | none =>
      simp only []
      rw [ih]
      simp [Nat.add_comm, Nat.add_left_comm]
    | some m =>
      simp only []
      cases hr : recurse (ops.ofString m) st with
      | none => rfl
      | some r =>
        obtain ⟨r1, st1⟩ := r
        cases r1 with
        | error e => rfl
        | ok text =>
          simp only []
          rw [ih]
          simp [Nat.add_comm, Nat.add_left_comm]

/-! ## The number in the marker -/

/-- C3: in a successful expansion of a file whose lines are `pre`, then a
    line that is an include directive, then `post`, the output is the output
    `a` for `pre`, then the expansion `t` of the directive, then the marker
    `#line k` with `k = length pre + 1` in decimal and its terminator, one
    more terminator, then the output `b` for `post`: whatever `t` is and
    however many directives `pre` contains. -/
theorem marker_number {P : Type} [DecidableEq P] (ops : PathOps P) (fs : FileSystem P)
    (sp : List P) (fuel : Nat) (path parentPath fullPath : P) (st st' : State P) (out : Str)
    (pre post : List Str) (line m : Str)
    (hok : parseRecursive ops fs sp (fuel + 1) path parentPath st = some (.ok out, st'))
    (hfull : (findFullPath ops fs sp path parentPath).1 = .ok fullPath)
    (hfile : fs.ifstream fullPath = some (pre ++ line :: post))
    (hm : regex_search line sIncludeRegex = some m) :
    ∃ (a t b : Str) (sa st1 : State P),
      whileGetline ops
          (fun p s => parseRecursive ops fs sp fuel p (ops.parent_path fullPath) s) pre 1 []
          (entered st path
            ((findFullPath ops fs sp path parentPath).2 ++ [Event.openFile fullPath]))
        = some (.ok a, sa) ∧
      parseRecursive ops fs sp fuel (ops.ofString m) (ops.parent_path fullPath) sa
        = some (.ok t, st1) ∧
      whileGetline ops
          (fun p s => parseRecursive ops fs sp fuel p (ops.parent_path fullPath) s) post
          (pre.length + 2) [] st1
        = some (.ok b, st') ∧
      out = a ++ t ++ ("#line ".toList ++ Nat.toDigits 10 (pre.length + 1) ++ ['\n'])
        ++ ['\n'] ++ b := by
  have hnot : path ∉ st.includeTree := by
    intro hin
    rw [parseRecursive_circular ops fs sp fuel path parentPath st hin] at hok
    simp at hok
  rw [parseRecursive_lines ops fs sp fuel path parentPath st hnot fullPath hfull _ hfile,
    whileGetline_append] at hok
  cases hpre : whileGetline ops
      (fun p s => parseRecursive ops fs sp fuel p (ops.parent_path fullPath) s) pre 1 []
      (entered st path
        ((findFullPath ops fs sp path parentPath).2 ++ [Event.openFile fullPath])) with
  | none => simp [hpre] at hok
  | some r =>
    obtain ⟨r1, sa⟩ := r
    cases r1 with
    | error e => simp [hpre] at hok
    | ok a =>
      rw [hpre] at hok
      simp only [] at hok
      rw [whileGetline, hm] at hok
      simp only [] at hok
      cases hrec : parseRecursive ops fs sp fuel (ops.ofString m) (ops.parent_path fullPath)
          sa with
      | none => simp [hrec] at hok
      | some r =>
        obtain ⟨r1, st1⟩ := r
        cases r1 with
        | error e => simp [hrec] at hok
        | ok t =>
          rw [hrec] at hok
          simp only [] at hok
          rw [whileGetline_output] at hok
          cases hpost : whileGetline ops
              (fun p s => parseRecursive ops fs sp fuel p (ops.parent_path fullPath) s) post
              (1 + pre.length + 1) [] st1 with
          | none => simp [hpost] at hok
          | some r =>
            obtain ⟨r1, s2⟩ := r
            cases r1 with
            | error e => simp [hpost, Except.map] at hok
            | ok b =>
              simp [hpost, Except.map] at hok
              obtain ⟨hout, hst⟩ := hok
              refine ⟨a, t, b, sa, st1, rfl, hrec, ?_, ?_⟩
              · have h2 : pre.length + 2 = 1 + pre.length + 1 := by omega
                rw [h2, hpost, hst]
              · rw [← hout]
                simp [lineMarker, Nat.add_comm]

/-- C3 at a concrete input: in `root.glsl` the second directive stands on
    line 4, after a first directive on line 2 and before a three-line file is
    inlined for it; its marker is `#line 4`. -/
theorem marker_number_witness :
    ∃ (a t b : Str) (sa st1 : State Str),
      whileGetline textPaths (fun p s => parseRecursive textPaths fsMarkers [] 1 p [] s)
          ["x".toList, includeLib, "y".toList] 1 []
          (entered (initState Str) "root.glsl".toList
            ((findFullPath textPaths fsMarkers [] "root.glsl".toList []).2
              ++ [Event.openFile "root.glsl".toList]))
        = some (.ok a, sa) ∧
      parseRecursive textPaths fsMarkers [] 1 "two.glsl".toList [] sa = some (.ok t, st1) ∧
      whileGetline textPaths (fun p s => parseRecursive textPaths fsMarkers [] 1 p [] s)
          ["z".toList] (3 + 2) [] st1
        = some (.ok b,
            (parse textPaths fsMarkers [] 2 "root.glsl".toList).elim (initState Str)
              (fun r => r.2)) ∧
      "x\nc\n#line 2\n\ny\np\nq\nr\n#line 4\n\nz\n".toList
        = a ++ t ++ ("#line ".toList ++ Nat.toDigits 10 (3 + 1) ++ ['\n']) ++ ['\n'] ++ b :=
  marker_number textPaths fsMarkers [] 1 "root.glsl".toList [] "root.glsl".toList
    (initState Str) _ "x\nc\n#line 2\n\ny\np\nq\nr\n#line 4\n\nz\n".toList
    ["x".toList, includeLib, "y".toList] ["z".toList] "#include <two.glsl>".toList
    "two.glsl".toList (by rfl) (by decide) (by decide) (by decide)

/-- Every lookup of `findFullPath` is for a candidate of the path asked for:
    beside the parent, or in a search path. -/
theorem findInSearchPaths_probes {P : Type} (ops : PathOps P) (fs : FileSystem P) (path : P)
    (sp : List P) :
    ∀ e ∈ (findInSearchPaths ops fs path sp).2, ∃ s ∈ sp, e = Event.probe (ops.join s path) := by
  induction sp with
  | nil => simp [findInSearchPaths]
  | cons a more ih =>
    intro e he
    by_cases ha : fs.fs_exists (ops.join a path) = true
    · simp [findInSearchPaths, ha] at he
      exact ⟨a, List.mem_cons_self _ _, he⟩
    · simp [findInSearchPaths, ha] at he
      rcases he with he | he
      · exact ⟨a, List.mem_cons_self _ _, he⟩
      · obtain ⟨s, hs, hes⟩ := ih e he
        exact ⟨s, List.mem_cons_of_mem _ hs, hes⟩

theorem findFullPath_probes {P : Type} (ops : PathOps P) (fs : FileSystem P) (sp : List P)
    (path parentPath : P) :
    ∀ e ∈ (findFullPath ops fs sp path parentPath).2,
      e = Event.probe (ops.join parentPath path) ∨
        ∃ s ∈ sp, e = Event.probe (ops.join s path) := by
  intro e he
  by_cases h : fs.fs_exists (ops.join parentPath path) = true
  · simp [findFullPath, h] at he
    exact Or.inl he
  · simp [findFullPath, h] at he
    rcases he with he | he
    · exact Or.inl he
    · exact Or.inr (findInSearchPaths_probes ops fs path sp e he)

/-! ## Files without include directives -/

/-- C4: for a root that resolves to a readable file none of whose lines is an
    include directive, `parse` returns the lines in order, each followed by
    one line terminator (the empty text when there are no lines), and nothing
    else; the only filesystem accesses are the lookups of the candidates for
    the root itself and the opening of the root, and the root is the only
    path entered into `includeTree`. -/
theorem parse_plain_file {P : Type} [DecidableEq P] (ops : PathOps P) (fs : FileSystem P)
    (sp : List P) (root rootFull : P) (lines : List Str)
    (hroot : (findFullPath ops fs sp root ops.empty).1 = .ok rootFull)
    (hfile : fs.ifstream rootFull = some lines)
    (hplain : ∀ l ∈ lines, regex_search l sIncludeRegex = none)
    (fuel : Nat) (hfuel : 1 ≤ fuel) :
    ∃ st : State P,
      parse ops fs sp fuel root = some (.ok (withTerminators lines), st) ∧
      (lines = [] → withTerminators lines = []) ∧
      st.includeTree = [root] ∧
      opened st.log = [rootFull] ∧
      ∀ e ∈ st.log, e = Event.openFile rootFull ∨ e = Event.probe (ops.join ops.empty root) ∨
        ∃ s ∈ sp, e = Event.probe (ops.join s root) := by
  obtain ⟨f, rfl⟩ : ∃ f, fuel = f + 1 := ⟨fuel - 1, by omega⟩
  have hr : root ∉ (initState P).includeTree := by simp [initState]
  have hprobe := findFullPath_probes ops fs sp root ops.empty
  refine ⟨entered (initState P) root
    ((findFullPath ops fs sp root ops.empty).2 ++ [Event.openFile rootFull]), ?_, ?_, ?_, ?_, ?_⟩
  · exact parseRecursive_leaf ops fs sp f root ops.empty (initState P) hr rootFull hroot lines
      hfile hplain
  · intro h
    rw [h]
    rfl
  · simp [entered, initState]
  · have hnone : opened (findFullPath ops fs sp root ops.empty).2 = [] := by
      generalize (findFullPath ops fs sp root ops.empty).2 = l at hprobe
      induction l with
      | nil => rfl
      | cons e es ih =>
        have he := hprobe e (List.mem_cons_self _ _)
        have hes : opened es = [] := ih (fun x hx => hprobe x (List.mem_cons_of_mem _ hx))
        rcases he with he | ⟨s, _, he⟩ <;> simp [he, opened, hes]
    simp [entered, initState, opened_append, hnone, opened]
  · intro e he
    simp only [entered, initState, List.nil_append, List.mem_append, List.mem_singleton] at he
    rcases he with he | he
    · exact Or.inr (hprobe e he)
    · exact Or.inl he

/-- C4 at a concrete input: `plain.glsl`, four lines, one of them a
    commented-out include and one empty, looked up with one search path. -/
theorem parse_plain_file_witness :
    ∃ st : State Str,
      parse textPaths fsPlain ["assets".toList] 1 "plain.glsl".toList
        = some (.ok (withTerminators ["void main()".toList,
            "// #include \"lib.glsl\"".toList, [], "#line 7".toList]), st) ∧
      (["void main()".toList, "// #include \"lib.glsl\"".toList, [], "#line 7".toList] = [] →
        withTerminators ["void main()".toList, "// #include \"lib.glsl\"".toList, [],
          "#line 7".toList] = []) ∧
      st.includeTree = ["plain.glsl".toList] ∧
      opened st.log = ["plain.glsl".toList] ∧
      ∀ e ∈ st.log, e = Event.openFile "plain.glsl".toList ∨
        e = Event.probe (textPaths.join textPaths.empty "plain.glsl".toList) ∨
        ∃ s ∈ ["assets".toList], e = Event.probe (textPaths.join s "plain.glsl".toList) :=
  parse_plain_file textPaths fsPlain ["assets".toList] "plain.glsl".toList
    "plain.glsl".toList _ (by decide) (by rfl) (by decide) 1 (by decide)

theorem opened_findFullPath {P : Type} (ops : PathOps P) (fs : FileSystem P) (sp : List P)
    (path parentPath : P) : opened (findFullPath ops fs sp path parentPath).2 = [] := by
  have hprobe := findFullPath_probes ops fs sp path parentPath
  generalize (findFullPath ops fs sp path parentPath).2 = l at hprobe
  induction l with
  | nil => rfl
  | cons e es ih =>
    have he := hprobe e (List.mem_cons_self _ _)
    have hes : opened es = [] := ih (fun x hx => hprobe x (List.mem_cons_of_mem _ hx))
    rcases he with he | ⟨s, _, he⟩ <;> simp [he, opened, hes]

/-! ## Cycles -/

/-- The call for the `i`-th file of a ring of `n` files, entered with the
    paths of the files before it in `includeTree`: it throws the circular
    include exception for the first path, after opening the files `i`, ...,
    `n - 1` once each. -/
theorem parseRecursive_ring {P : Type} [DecidableEq P] (ops : PathOps P) (fs : FileSystem P)
    (sp : List P) (n : Nat) (s : Nat → Str) (L : Nat → P) (pre post : Nat → List Str)
    (inc : Nat → Str)
    (hdistinct : ∀ i, i < n → ∀ j, j < n → ops.ofString (s i) = ops.ofString (s j) → i = j)
    (hres : ∀ i, i < n →
      (findFullPath ops fs sp (ops.ofString (s i)) (parentDirOf ops L i)).1 = .ok (L i))
    (hfile : ∀ i, i < n → fs.ifstream (L i) = some (pre i ++ inc i :: post i))
    (hpre : ∀ i, i < n → ∀ l ∈ pre i, regex_search l sIncludeRegex = none)
    (hinc : ∀ i, i < n → regex_search (inc i) sIncludeRegex = some (s ((i + 1) % n)))
    (m : Nat) : ∀ (i : Nat), i + m + 1 = n → ∀ (fuel : Nat) (st : State P), m + 2 ≤ fuel →
      (∀ q, q ∈ st.includeTree ↔ ∃ j, j < i ∧ q = ops.ofString (s j)) →
      ∃ st' : State P,
        parseRecursive ops fs sp fuel (ops.ofString (s i)) (parentDirOf ops L i) st
          = some (.error (circularExc ops (ops.ofString (s 0))), st') ∧
        opened st'.log = opened st.log ++ (List.range' i (m + 1)).map L ∧
        ∀ q, q ∈ st'.includeTree ↔ ∃ j, j < n ∧ q = ops.ofString (s j) := by
  induction m with
  | zero =>
    intro i hi fuel st hfuel htree
    obtain ⟨f, rfl⟩ : ∃ f, fuel = f + 2 := ⟨fuel - 2, by omega⟩
    have hin : i < n := by omega
    have hnot : ops.ofString (s i) ∉ st.includeTree := by
      intro h
      obtain ⟨j, hj, hq⟩ := (htree _).mp h
      have := hdistinct i hin j (by omega) hq
      omega
    have hmod : (i + 1) % n = 0 := by
      have : i + 1 = n := by omega
      rw [this, Nat.mod_self]
    have htree2 : ∀ q, q ∈ (entered st (ops.ofString (s i))
        ((findFullPath ops fs sp (ops.ofString (s i)) (parentDirOf ops L i)).2
          ++ [Event.openFile (L i)])).includeTree ↔ ∃ j, j < n ∧ q = ops.ofString (s j) := by
      intro q
      simp only [entered, List.mem_insert_iff, htree]
      constructor
      · rintro (h | ⟨j, hj, h⟩)
        · exact ⟨i, hin, h⟩
        · exact ⟨j, by omega, h⟩
      · rintro ⟨j, hj, h⟩
        by_cases hji : j = i
        · exact Or.inl (hji ▸ h)
        · exact Or.inr ⟨j, by omega, h⟩
    refine ⟨_, ?_, ?_, htree2⟩
    · rw [parseRecursive_lines ops fs sp (f + 1) _ _ st hnot (L i) (hres i hin) _ (hfile i hin),
        whileGetline_plain ops _ (pre i) (hpre i hin)]
      apply whileGetline_include_error ops _ (inc i) _ (hinc i hin)
      rw [hmod]
      apply parseRecursive_circular
      exact (htree2 _).mpr ⟨0, by omega, rfl⟩
    · simp [entered, opened_append, opened_findFullPath, opened]
  | succ m ih =>
    intro i hi fuel st hfuel htree
    obtain ⟨f, rfl⟩ : ∃ f, fuel = f + 1 := ⟨fuel - 1, by omega⟩
    have hin : i < n := by omega
    have hnot : ops.ofString (s i) ∉ st.includeTree := by
      intro h
      obtain ⟨j, hj, hq⟩ := (htree _).mp h
      have := hdistinct i hin j (by omega) hq
      omega
    have hmod : (i + 1) % n = i + 1 := Nat.mod_eq_of_lt (by omega)
    have htree2 : ∀ q, q ∈ (entered st (ops.ofString (s i))
        ((findFullPath ops fs sp (ops.ofString (s i)) (parentDirOf ops L i)).2
          ++ [Event.openFile (L i)])).includeTree ↔
          ∃ j, j < i + 1 ∧ q = ops.ofString (s j) := by
      intro q
      simp only [entered, List.mem_insert_iff, htree]
      constructor
      · rintro (h | ⟨j, hj, h⟩)
        · exact ⟨i, by omega, h⟩
        · exact ⟨j, by omega, h⟩
      · rintro ⟨j, hj, h⟩
        by_cases hji : j = i
        · exact Or.inl (hji ▸ h)
        · exact Or.inr ⟨j, by omega, h⟩
    obtain ⟨st', hcall, hopen, htree'⟩ := ih (i + 1) (by omega) f _ (by omega) htree2
    refine ⟨st', ?_, ?_, htree'⟩
    · rw [parseRecursive_lines ops fs sp f _ _ st hnot (L i) (hres i hin) _ (hfile i hin),
        whileGetline_plain ops _ (pre i) (hpre i hin)]
      apply whileGetline_include_error ops _ (inc i) _ (hinc i hin)
      rw [hmod]
      exact hcall
    · rw [hopen]
      simp [entered, opened_append, opened_findFullPath, opened, List.range'_succ]

/-- C5: a ring of `n >= 1` files, where the path of each is `f i`, distinct
    for distinct `i`, file `i` is found at `L i` (beside its includer, or in
    a search path; the root with no parent directory), is readable, and its
    first include directive names `f ((i + 1) mod n)`: `parse` of `f 0` throws
    the circular include exception carrying `f 0`, having opened each of the
    `n` files exactly once, in the order of the ring (so the exception comes
    from the second visit to `f 0`), and with exactly the `n` paths in
    `includeTree`. -/
theorem parse_cycle {P : Type} [DecidableEq P] (ops : PathOps P) (fs : FileSystem P)
    (sp : List P) (n : Nat) (s : Nat → Str) (L : Nat → P) (pre post : Nat → List Str)
    (inc : Nat → Str) (hn : 1 ≤ n)
    (hdistinct : ∀ i, i < n → ∀ j, j < n → ops.ofString (s i) = ops.ofString (s j) → i = j)
    (hres : ∀ i, i < n →
      (findFullPath ops fs sp (ops.ofString (s i)) (parentDirOf ops L i)).1 = .ok (L i))
    (hfile : ∀ i, i < n → fs.ifstream (L i) = some (pre i ++ inc i :: post i))
    (hpre : ∀ i, i < n → ∀ l ∈ pre i, regex_search l sIncludeRegex = none)
    (hinc : ∀ i, i < n → regex_search (inc i) sIncludeRegex = some (s ((i + 1) % n)))
    (fuel : Nat) (hfuel : n + 1 ≤ fuel) :
    ∃ st : State P,
      parse ops fs sp fuel (ops.ofString (s 0))
        = some (.error (circularExc ops (ops.ofString (s 0))), st) ∧
      opened st.log = (List.range n).map L ∧
      ∀ q, q ∈ st.includeTree ↔ ∃ j, j < n ∧ q = ops.ofString (s j) := by
  obtain ⟨st, hcall, hopen, htree⟩ := parseRecursive_ring ops fs sp n s L pre post inc
    hdistinct hres hfile hpre hinc (n - 1) 0 (by omega) fuel (initState P) (by omega)
    (by simp [initState])
  refine ⟨st, hcall, ?_, htree⟩
  rw [hopen, List.range_eq_range']
  have : n - 1 + 1 = n := by omega
  simp [initState, opened, this]

/-- C5 at a ring of four files in one directory. -/
theorem parse_cycle_witness :
    ∃ st : State Str,
      parse textPaths fsRing [] 5 (textPaths.ofString (ringNames.getD 0 []))
        = some (.error (circularExc textPaths (textPaths.ofString (ringNames.getD 0 []))), st) ∧
      opened st.log = (List.range 4).map (fun i => ringNames.getD i []) ∧
      ∀ q, q ∈ st.includeTree ↔
        ∃ j, j < 4 ∧ q = textPaths.ofString (ringNames.getD j []) :=
  parse_cycle textPaths fsRing [] 4 (fun i => ringNames.getD i [])
    (fun i => ringNames.getD i []) (fun i => ringPre.getD i []) (fun i => ringPost.getD i [])
    (fun i => ringInc.getD i []) (by decide) (by decide) (by decide) (by decide) (by decide)
    (by decide) 5 (by decide)

/-! ## `includeTree` only grows -/

theorem whileGetline_includeTree {P : Type} (ops : PathOps P)
    (recurse : P → State P → Outcome P)
    (hrec : ∀ p s r s', recurse p s = some (r, s') → s.includeTree ⊆ s'.includeTree)
    (lines : List Str) (n : Nat) (out : Str) (st : State P)
    (r : Except ShaderPreprocessorExc Str) (st' : State P)
    (h : whileGetline ops recurse lines n out st = some (r, st')) :
    st.includeTree ⊆ st'.includeTree := by
  induction lines generalizing n out st with
  | nil =>
    simp [whileGetline] at h
    rw [h.2]
    exact List.Subset.refl _
  | cons l ls ih =>
    rw [whileGetline] at h
    cases hm : regex_search l sIncludeRegex with
    | none =>
      rw [hm] at h
      exact ih _ _ _ h
    | some m =>
      rw [hm] at h
      simp only [] at h
      cases hr : recurse (ops.ofString m) st with
      | none => simp [hr] at h
      | some x =>
        obtain ⟨x1, s1⟩ := x
        have hsub := hrec _ _ _ _ hr
        cases x1 with
        | error e =>
          simp [hr] at h
          rw [← h.2]
          exact hsub
        | ok text =>
          rw [hr] at h
          exact List.Subset.trans hsub (ih _ _ _ h)

/-- Whatever a call of `parseRecursive` returns or throws, every path that
    was in `includeTree` before is in it afterwards, and so is the path of
    the call: nothing is ever erased from the set. -/
theorem parseRecursive_includeTree {P : Type} [DecidableEq P] (ops : PathOps P)
    (fs : FileSystem P) (sp : List P) (fuel : Nat) :
    ∀ (path parentPath : P) (st : State P) (r : Except ShaderPreprocessorExc Str)
      (st' : State P), parseRecursive ops fs sp fuel path parentPath st = some (r, st') →
      st.includeTree ⊆ st'.includeTree ∧ path ∈ st'.includeTree := by
  induction fuel with
  | zero =>
    intro path parentPath st r st' h
    simp [parseRecursive] at h
  | succ f ih =>
    intro path parentPath st r st' h
    by_cases hin : path ∈ st.includeTree
    · rw [parseRecursive_circular ops fs sp f path parentPath st hin] at h
      simp at h
      rw [← h.2]
      exact ⟨List.Subset.refl _, hin⟩
    · have hsub : ∀ ev, st.includeTree ⊆ (entered st path ev).includeTree := by
        intro ev q hq
        simp [entered, hq]
      have hmem : ∀ ev, path ∈ (entered st path ev).includeTree := by
        intro ev
        simp [entered]
      cases hf : (findFullPath ops fs sp path parentPath).1 with
      | error e =>
        rw [parseRecursive_unresolved ops fs sp f path parentPath st hin e hf] at h
        simp at h
        rw [← h.2]
        exact ⟨hsub _, hmem _⟩
      | ok fullPath =>
        cases ho : fs.ifstream fullPath with
        | none =>
          rw [parseRecursive_unopened ops fs sp f path parentPath st hin fullPath hf ho] at h
          simp at h
          rw [← h.2]
          exact ⟨hsub _, hmem _⟩
        | some lines =>
          rw [parseRecursive_lines ops fs sp f path parentPath st hin fullPath hf lines ho] at h
          have hloop := whileGetline_includeTree ops _
            (fun p s r s' hc => (ih p _ s r s' hc).1) lines 1 [] _ r st' h
          exact ⟨List.Subset.trans (hsub _) hloop, hloop (hmem _)⟩

/-! ## Including one file twice -/

/-- C6, the claim as stated fails: `twice.glsl` includes the directive-free
    `lib.glsl` on its first and on its third line; `parse` does not return
    the content inlined twice, it throws the circular include exception for
    `lib.glsl`, although the first expansion of `lib.glsl` had returned. -/
theorem parse_include_twice_counterexample :
    (parse textPaths fsTwice [] 2 "twice.glsl".toList).map (fun r => r.1)
        = some (.error ⟨"circular include found, path: lib.glsl".toList⟩) ∧
    (parse textPaths fsTwice [] 2 "twice.glsl".toList).map (fun r => r.1)
        ≠ some (.ok "c\n#line 1\n\nm\nc\n#line 3\n\n".toList) := by
  constructor
  · rfl
  · decide

/-- C6, amended: `includeTree` holds every path whose expansion was started
    in this `parse`, whether it is still in progress or has returned: a call
    of `parseRecursive` leaves in the set all paths that were in it and its
    own path, and a call for a path already in the set throws the circular
    include exception.  So a root that includes the same directive-free file (not the
    root's own path) on two separate lines is not expanded: the first
    directive is expanded and its path stays in the set, and `parse` throws
    the circular include exception carrying that path at the second. -/
theorem parse_include_twice {P : Type} [DecidableEq P] (ops : PathOps P)
    (fs : FileSystem P) (sp : List P) (root rootFull libFull : P)
    (pre mid post body : List Str) (inc1 inc2 p1 p2 : Str)
    (hroot : (findFullPath ops fs sp root ops.empty).1 = .ok rootFull)
    (hfile : fs.ifstream rootFull = some (pre ++ inc1 :: (mid ++ inc2 :: post)))
    (hpre : ∀ l ∈ pre, regex_search l sIncludeRegex = none)
    (hmid : ∀ l ∈ mid, regex_search l sIncludeRegex = none)
    (hinc1 : regex_search inc1 sIncludeRegex = some p1)
    (hinc2 : regex_search inc2 sIncludeRegex = some p2)
    (hsame : ops.ofString p1 = ops.ofString p2)
    (hne : ops.ofString p1 ≠ root)
    (hlib : (findFullPath ops fs sp (ops.ofString p1) (ops.parent_path rootFull)).1
      = .ok libFull)
    (hbody : fs.ifstream libFull = some body)
    (hplain : ∀ l ∈ body, regex_search l sIncludeRegex = none)
    (fuel : Nat) (hfuel : 2 ≤ fuel) :
    (∀ (k : Nat) (path parentPath : P) (st st' : State P)
        (r : Except ShaderPreprocessorExc Str),
        parseRecursive ops fs sp k path parentPath st = some (r, st') →
        st.includeTree ⊆ st'.includeTree ∧ path ∈ st'.includeTree) ∧
    (∀ (k : Nat) (path parentPath : P) (st : State P), path ∈ st.includeTree →
        parseRecursive ops fs sp (k + 1) path parentPath st
          = some (.error (circularExc ops path), st)) ∧
    (∃ st1 : State P,
      parseRecursive ops fs sp (fuel - 1) (ops.ofString p1) (ops.parent_path rootFull)
          (entered (initState P) root
            ((findFullPath ops fs sp root ops.empty).2 ++ [Event.openFile rootFull]))
        = some (.ok (withTerminators body), st1) ∧
      ops.ofString p1 ∈ st1.includeTree) ∧
    (parse ops fs sp fuel root).map (fun r => r.1)
      = some (.error (circularExc ops (ops.ofString p1))) := by
  obtain ⟨f, rfl⟩ : ∃ f, fuel = f + 2 := ⟨fuel - 2, by omega⟩
  have hr : root ∉ (initState P).includeTree := by simp [initState]
  have hq : ops.ofString p1 ∉ (entered (initState P) root
      ((findFullPath ops fs sp root ops.empty).2 ++ [Event.openFile rootFull])).includeTree := by
    simp [entered, initState, hne]
  have hleaf := parseRecursive_leaf ops fs sp f (ops.ofString p1) (ops.parent_path rootFull) _
    hq libFull hlib body hbody hplain
  refine ⟨fun k path parentPath st st' r h =>
    parseRecursive_includeTree ops fs sp k path parentPath st r st' h,
    fun k path parentPath st h => parseRecursive_circular ops fs sp k path parentPath st h,
    ⟨_, hleaf, ?_⟩, ?_⟩
  · simp [entered]
  · rw [parse, parseRecursive_lines ops fs sp (f + 1) root ops.empty (initState P) hr rootFull
      hroot _ hfile, whileGetline_plain ops _ pre hpre,
      whileGetline_include_ok ops _ inc1 p1 hinc1 _ _ _ hleaf,
      whileGetline_plain ops _ mid hmid,
      whileGetline_include_error ops _ inc2 p2 hinc2 _ _ (circularExc ops (ops.ofString p1))
        (by
          rw [← hsame]
          apply parseRecursive_circular
          simp [entered])]
    rfl

/-- C6, amended, at `twice.glsl`. -/
theorem parse_include_twice_witness :
    (parse textPaths fsTwice [] 2 "twice.glsl".toList).map (fun r => r.1)
      = some (.error (circularExc textPaths (textPaths.ofString "lib.glsl".toList))) :=
  (parse_include_twice textPaths fsTwice [] "twice.glsl".toList "twice.glsl".toList
    "lib.glsl".toList [] ["m".toList] [] ["c".toList] includeLib includeLib "lib.glsl".toList
    "lib.glsl".toList (by decide) (by decide) (by decide) (by decide) (by decide) (by decide)
    (by decide) (by decide) (by decide) (by decide) (by decide) 2 (by decide)).2.2.2

/-! ## More fuel does not change a result -/

theorem whileGetline_mono {P : Type} (ops : PathOps P)
    (recurse recurse' : P → State P → Outcome P)
    (hrec : ∀ p s x, recurse p s = some x → recurse' p s = some x)
    (lines : List Str) (n : Nat) (out : Str) (st : State P)
    (x : Except ShaderPreprocessorExc Str × State P)
    (h : whileGetline ops recurse lines n out st = some x) :
    whileGetline ops recurse' lines n out st = some x := by
  induction lines generalizing n out st with
  | nil => simpa [whileGetline] using h
  | cons l ls ih =>
    rw [whileGetline] at h
    rw [whileGetline]
    cases hm : regex_search l sIncludeRegex with
    | none =>
      rw [hm] at h
      exact ih _ _ _ h
    | some m =>
      rw [hm] at h
      simp only [] at h ⊢
      cases hr : recurse (ops.ofString m) st with
      | none => simp [hr] at h
      | some y =>
        rw [hrec _ _ _ hr]
        rw [hr] at h
        obtain ⟨y1, s1⟩ := y
        cases y1 with
        | error e => exact h
        | ok text => exact ih _ _ _ h

theorem parseRecursive_fuel_succ {P : Type} [DecidableEq P] (ops : PathOps P)
    (fs : FileSystem P) (sp : List P) (fuel : Nat) :
    ∀ (path parentPath : P) (st : State P) (x : Except ShaderPreprocessorExc Str × State P),
      parseRecursive ops fs sp fuel path parentPath st = some x →
      parseRecursive ops fs sp (fuel + 1) path parentPath st = some x := by
  induction fuel with
  | zero =>
    intro path parentPath st x h
    simp [parseRecursive] at h
  | succ f ih =>
    intro path parentPath st x h
    by_cases hin : path ∈ st.includeTree
    · rw [parseRecursive_circular ops fs sp f path parentPath st hin] at h
      rw [parseRecursive_circular ops fs sp (f + 1) path parentPath st hin]
      exact h
    · cases hf : (findFullPath ops fs sp path parentPath).1 with
      | error e =>
        rw [parseRecursive_unresolved ops fs sp f path parentPath st hin e hf] at h
        rw [parseRecursive_unresolved ops fs sp (f + 1) path parentPath st hin e hf]
        exact h
      | ok fullPath =>
        cases ho : fs.ifstream fullPath with
        | none =>
          rw [parseRecursive_unopened ops fs sp f path parentPath st hin fullPath hf ho] at h
          rw [parseRecursive_unopened ops fs sp (f + 1) path parentPath st hin fullPath hf ho]
          exact h
        | some lines =>
          rw [parseRecursive_lines ops fs sp f path parentPath st hin fullPath hf lines ho] at h
          rw [parseRecursive_lines ops fs sp (f + 1) path parentPath st hin fullPath hf lines ho]
          exact whileGetline_mono ops _ _ (fun p s y hy => ih p _ s y hy) lines 1 [] _ x h

theorem parseRecursive_fuel_le {P : Type} [DecidableEq P] (ops : PathOps P)
    (fs : FileSystem P) (sp : List P) (fuel fuel' : Nat) (hle : fuel ≤ fuel')
    (path parentPath : P) (st : State P) (x : Except ShaderPreprocessorExc Str × State P)
    (h : parseRecursive ops fs sp fuel path parentPath st = some x) :
    parseRecursive ops fs sp fuel' path parentPath st = some x := by
  induction hle with
  | refl => exact h
  | step _ ih => exact parseRecursive_fuel_succ ops fs sp _ path parentPath st x ih

/-! ## Termination -/

theorem step_refl {P : Type} (U : List P) (st : State P) (hU : st.includeTree ⊆ U)
    (hnd : st.includeTree.Nodup) : Step U st st :=
  ⟨List.Subset.refl _, hU, hnd, Nat.le_refl _⟩

theorem step_trans {P : Type} (U : List P) (a b c : State P) (hab : Step U a b)
    (hbc : Step U b c) : Step U a c := by
  obtain ⟨h1, _, _, h4⟩ := hab
  obtain ⟨k1, k2, k3, k4⟩ := hbc
  exact ⟨List.Subset.trans h1 k1, k2, k3, by omega⟩

theorem step_length {P : Type} (U : List P) (a b : State P) (ha : a.includeTree.Nodup)
    (hab : Step U a b) : a.includeTree.length ≤ b.includeTree.length :=
  (List.subperm_of_subset ha hab.1).length_le

theorem step_entered {P : Type} [DecidableEq P] (U : List P) (st : State P) (path : P)
    (events : List (Event P)) (hU : st.includeTree ⊆ U) (hnd : st.includeTree.Nodup)
    (hpath : path ∈ U) (hnot : path ∉ st.includeTree)
    (hev : (opened events).length ≤ 1) : Step U st (entered st path events) := by
  refine ⟨?_, ?_, ?_, ?_⟩
  · intro q hq
    simp [entered, hq]
  · intro q hq
    simp only [entered, List.mem_insert_iff] at hq
    rcases hq with rfl | hq
    · exact hpath
    · exact hU hq
  · exact hnd.insert
  · simp only [entered, opened_append, List.length_append,
      List.length_insert_of_not_mem hnot]
    omega

/-- The loop returns, and makes a `Step`, when every recursive call it can
    make does. -/
theorem whileGetline_total {P : Type} (ops : PathOps P) (U : List P) (k : Nat)
    (recurse : P → State P → Outcome P)
    (hrec : ∀ p s, p ∈ U → s.includeTree ⊆ U → s.includeTree.Nodup →
      k ≤ s.includeTree.length → ∃ r s', recurse p s = some (r, s') ∧ Step U s s')
    (lines : List Str)
    (hlines : ∀ l ∈ lines, ∀ m, regex_search l sIncludeRegex = some m → ops.ofString m ∈ U)
    (n : Nat) (out : Str) (st : State P) (hU : st.includeTree ⊆ U)
    (hnd : st.includeTree.Nodup) (hk : k ≤ st.includeTree.length) :
    ∃ r st', whileGetline ops recurse lines n out st = some (r, st') ∧ Step U st st' := by
  induction lines generalizing n out st with
  | nil => exact ⟨_, _, rfl, step_refl U st hU hnd⟩
  | cons l ls ih =>
    have hls : ∀ x ∈ ls, ∀ m, regex_search x sIncludeRegex = some m → ops.ofString m ∈ U :=
      fun x hx => hlines x (List.mem_cons_of_mem _ hx)
    rw [whileGetline]
    cases hm : regex_search l sIncludeRegex with
    | none => exact ih hls _ _ st hU hnd hk
    | some m =>
      simp only []
      obtain ⟨r, s1, hr, hstep⟩ :=
        hrec (ops.ofString m) st (hlines l (List.mem_cons_self _ _) m hm) hU hnd hk
      rw [hr]
      cases r with
      | error e => exact ⟨_, _, rfl, hstep⟩
      | ok text =>
        obtain ⟨r2, s2, h2, hstep2⟩ := ih hls (n + 1)
          (out ++ text ++ lineMarker n ++ ['\n']) s1 hstep.2.1 hstep.2.2.1
          (Nat.le_trans hk (step_length U st s1 hnd hstep))
        exact ⟨r2, s2, h2, step_trans U st s1 s2 hstep hstep2⟩

/-- A call of `parseRecursive` returns or throws when the fuel covers the
    paths of `U` not yet in `includeTree`, `U` holding the path of the call
    and every include path that occurs in a readable file. -/
theorem parseRecursive_total {P : Type} [DecidableEq P] (ops : PathOps P)
    (fs : FileSystem P) (sp : List P) (U : List P)
    (hU : ∀ full lines, fs.ifstream full = some lines → ∀ l ∈ lines, ∀ m,
      regex_search l sIncludeRegex = some m → ops.ofString m ∈ U)
    (fuel : Nat) :
    ∀ (path parentPath : P) (st : State P), path ∈ U → st.includeTree ⊆ U →
      st.includeTree.Nodup → U.length + 1 ≤ fuel + st.includeTree.length →
      ∃ r st', parseRecursive ops fs sp fuel path parentPath st = some (r, st') ∧
        Step U st st' := by
  induction fuel with
  | zero =>
    intro path parentPath st _ hsub hnd hbudget
    have := (List.subperm_of_subset hnd hsub).length_le
    omega
  | succ f ih =>
    intro path parentPath st hpath hsub hnd hbudget
    by_cases hin : path ∈ st.includeTree
    · exact ⟨_, _, parseRecursive_circular ops fs sp f path parentPath st hin,
        step_refl U st hsub hnd⟩
    · have hprobes := opened_findFullPath ops fs sp path parentPath
      cases hf : (findFullPath ops fs sp path parentPath).1 with
      | error e =>
        exact ⟨_, _, parseRecursive_unresolved ops fs sp f path parentPath st hin e hf,
          step_entered U st path _ hsub hnd hpath hin (by simp [hprobes])⟩
      | ok fullPath =>
        have hen : Step U st (entered st path
            ((findFullPath ops fs sp path parentPath).2 ++ [Event.openFile fullPath])) :=
          step_entered U st path _ hsub hnd hpath hin
            (by simp [opened_append, hprobes, opened])
        cases ho : fs.ifstream fullPath with
        | none =>
          exact ⟨_, _, parseRecursive_unopened ops fs sp f path parentPath st hin fullPath hf ho,
            hen⟩
        | some lines =>
          rw [parseRecursive_lines ops fs sp f path parentPath st hin fullPath hf lines ho]
          obtain ⟨r, st', hloop, hstep⟩ := whileGetline_total ops U (st.includeTree.length + 1)
            (fun p s => parseRecursive ops fs sp f p (ops.parent_path fullPath) s)
            (fun p s hp hs hn hlen => ih p _ s hp hs hn (by omega))
            lines (hU fullPath lines ho) 1 [] _ hen.2.1 hen.2.2.1
            (by simp [entered, List.length_insert_of_not_mem hin])
          exact ⟨r, st', hloop, step_trans U st _ st' hen hstep⟩

theorem tableFS_ifstream_mem (files : List (Str × List Str)) (p : Str)
    (h : (tableFS files).ifstream p ≠ none) : p ∈ files.map Prod.fst := by
  induction files with
  | nil => simp [tableFS, List.lookup] at h
  | cons a more ih =>
    obtain ⟨k, v⟩ := a
    by_cases hk : p = k
    · simp [hk]
    · have hb : (p == k) = false := by simpa using hk
      have h' : (tableFS more).ifstream p ≠ none := by
        simpa [tableFS, List.lookup, hb] using h
      simp [ih h']

/-- C7: in a filesystem with finitely many readable files (every path that
    can be opened is in the list `files`), for every list of search paths and
    every root, `parse` terminates: there is one result, a text or an
    exception, that `parse` gives for every fuel from `N + 2` on, where `N` is
    the number of distinct include-path strings occurring in the files.  The
    number of files it opens is at most `N + 1`: it is at most the number of
    paths in `includeTree`, which holds no path twice. -/
theorem parse_terminates {P : Type} [DecidableEq P] (ops : PathOps P) (fs : FileSystem P)
    (sp : List P) (files : List P) (hfiles : ∀ p, fs.ifstream p ≠ none → p ∈ files)
    (root : P) :
    ∃ (r : Except ShaderPreprocessorExc Str) (st : State P),
      (∀ fuel, (includeStrings fs files).length + 2 ≤ fuel →
        parse ops fs sp fuel root = some (r, st)) ∧
      (opened st.log).length ≤ st.includeTree.length ∧
      st.includeTree.Nodup ∧
      st.includeTree.length ≤ (includeStrings fs files).length + 1 ∧
      (opened st.log).length ≤ (includeStrings fs files).length + 1 := by
  have hU : ∀ full lines, fs.ifstream full = some lines → ∀ l ∈ lines, ∀ m,
      regex_search l sIncludeRegex = some m →
      ops.ofString m ∈ root :: (includeStrings fs files).map ops.ofString := by
    intro full lines hfull l hl m hm
    apply List.mem_cons_of_mem
    apply List.mem_map_of_mem
    rw [includeStrings, List.mem_dedup, List.mem_flatMap]
    refine ⟨full, hfiles full (by simp [hfull]), ?_⟩
    rw [hfull, List.mem_filterMap]
    exact ⟨l, hl, hm⟩
  obtain ⟨r, st, hcall, hstep⟩ := parseRecursive_total ops fs sp
    (root :: (includeStrings fs files).map ops.ofString) hU
    ((includeStrings fs files).length + 2) root ops.empty (initState P)
    (List.mem_cons_self _ _) (by simp [initState]) (by simp [initState])
    (by simp [initState])
  obtain ⟨_, hsub, hnd, hcount⟩ := hstep
  have hlen : st.includeTree.length ≤ (includeStrings fs files).length + 1 := by
    have := (List.subperm_of_subset hnd hsub).length_le
    simpa using this
  have hopen : (opened st.log).length ≤ st.includeTree.length := by
    simpa [initState, opened] using hcount
  refine ⟨r, st, ?_, hopen, hnd, hlen, Nat.le_trans hopen hlen⟩
  intro fuel hfuel
  exact parseRecursive_fuel_le ops fs sp _ fuel hfuel root ops.empty (initState P) _ hcall

/-- C7 at the ring of four files, whose table lists every readable path. -/
theorem parse_terminates_witness :
    ∃ (r : Except ShaderPreprocessorExc Str) (st : State Str),
      (∀ fuel, (includeStrings fsRing (ringTable.map Prod.fst)).length + 2 ≤ fuel →
        parse textPaths fsRing ["assets".toList] fuel "b.glsl".toList = some (r, st)) ∧
      (opened st.log).length ≤ st.includeTree.length ∧
      st.includeTree.Nodup ∧
      st.includeTree.length ≤ (includeStrings fsRing (ringTable.map Prod.fst)).length + 1 ∧
      (opened st.log).length ≤ (includeStrings fsRing (ringTable.map Prod.fst)).length + 1 :=
  parse_terminates textPaths fsRing ["assets".toList] (ringTable.map Prod.fst)
    (fun p h => tableFS_ifstream_mem ringTable p h) "b.glsl".toList

/-! ## The not-found exception -/

/-- C8: `findFullPath` throws exactly when neither `parentPath / path` nor
    `searchPath / path` for any search path exists; what it throws is the
    not-found exception, whose message ends in the string of `path` itself,
    not of a joined candidate.  Hence `parse` of a root throws the not-found
    exception for `path` when it reaches a directive for `path` (the lines
    `pre` before it were processed without exception, and `path` is not in
    `includeTree` by then) and `path` exists in neither location. -/
theorem findFullPath_not_found {P : Type} [DecidableEq P] (ops : PathOps P)
    (fs : FileSystem P) (sp : List P) (path parentPath : P) :
    ((∃ e, (findFullPath ops fs sp path parentPath).1 = .error e) ↔
      (fs.fs_exists (ops.join parentPath path) = false ∧
        ∀ s ∈ sp, fs.fs_exists (ops.join s path) = false)) ∧
    (∀ e, (findFullPath ops fs sp path parentPath).1 = .error e → e = notFoundExc ops path) ∧
    (notFoundExc ops path).what
      = "could not find shader with include path: ".toList ++ ops.string path ∧
    (∀ (root rootFull : P) (pre post : List Str) (inc p a : Str) (sa : State P) (fuel : Nat),
      (findFullPath ops fs sp root ops.empty).1 = .ok rootFull →
      fs.ifstream rootFull = some (pre ++ inc :: post) →
      whileGetline ops
          (fun q s => parseRecursive ops fs sp (fuel + 1) q (ops.parent_path rootFull) s)
          pre 1 []
          (entered (initState P) root
            ((findFullPath ops fs sp root ops.empty).2 ++ [Event.openFile rootFull]))
        = some (.ok a, sa) →
      regex_search inc sIncludeRegex = some p →
      ops.ofString p = path → path ∉ sa.includeTree →
      parentPath = ops.parent_path rootFull →
      fs.fs_exists (ops.join parentPath path) = false →
      (∀ s ∈ sp, fs.fs_exists (ops.join s path) = false) →
      (parse ops fs sp (fuel + 2) root).map (fun r => r.1)
        = some (.error (notFoundExc ops path))) := by
  have hnone : fs.fs_exists (ops.join parentPath path) = false →
      (∀ s ∈ sp, fs.fs_exists (ops.join s path) = false) →
      (findFullPath ops fs sp path parentPath).1 = .error (notFoundExc ops path) := by
    intro h1 h2
    rw [findFullPath_search ops fs sp path parentPath h1]
    exact findInSearchPaths_none ops fs path sp h2
  have herr : ∀ e, (findFullPath ops fs sp path parentPath).1 = .error e →
      e = notFoundExc ops path ∧ fs.fs_exists (ops.join parentPath path) = false ∧
        ∀ s ∈ sp, fs.fs_exists (ops.join s path) = false := by
    intro e he
    by_cases h1 : fs.fs_exists (ops.join parentPath path) = true
    · rw [findFullPath_parent ops fs sp path parentPath h1] at he
      simp at he
    · have h1' : fs.fs_exists (ops.join parentPath path) = false := by simpa using h1
      rw [findFullPath_search ops fs sp path parentPath h1'] at he
      obtain ⟨h2, h3⟩ := findInSearchPaths_error ops fs path sp e he
      exact ⟨h2, h1', h3⟩
  refine ⟨⟨?_, ?_⟩, fun e he => (herr e he).1, rfl, ?_⟩
  · rintro ⟨e, he⟩
    exact (herr e he).2
  · rintro ⟨h1, h2⟩
    exact ⟨_, hnone h1 h2⟩
  · intro root rootFull pre post inc p a sa fuel hroot hfile hpre hinc hp hq hparent h1 h2
    have hr : root ∉ (initState P).includeTree := by simp [initState]
    rw [parse, parseRecursive_lines ops fs sp (fuel + 1) root ops.empty (initState P) hr
      rootFull hroot _ hfile, whileGetline_append, hpre]
    simp only []
    rw [whileGetline_include_error ops _ inc p hinc _ _ (notFoundExc ops path)
        (by
          rw [hp, ← hparent]
          exact parseRecursive_unresolved ops fs sp fuel path parentPath _ hq _ (hnone h1 h2))]
    rfl

/-- C8 at a concrete input: `nope.glsl` is neither beside `main.glsl` nor in
    `assets`; the exception names `nope.glsl`. -/
theorem findFullPath_not_found_witness :
    (findFullPath textPaths fsMissing ["assets".toList] "nope.glsl".toList []).1
        = .error ⟨"could not find shader with include path: nope.glsl".toList⟩ ∧
    (parse textPaths fsMissing ["assets".toList] 2 "main.glsl".toList).map (fun r => r.1)
        = some (.error ⟨"could not find shader with include path: nope.glsl".toList⟩) := by
  have h := findFullPath_not_found textPaths fsMissing ["assets".toList] "nope.glsl".toList []
  obtain ⟨e, he⟩ := h.1.mpr ⟨by decide, by decide⟩
  refine ⟨?_, ?_⟩
  · rw [he, h.2.1 e he]
    rfl
  · exact h.2.2.2 "main.glsl".toList "main.glsl".toList ["d".toList, includeLib, "a".toList]
      ["b".toList] "#include \"nope.glsl\"".toList "nope.glsl".toList _ _ 0 (by decide)
      (by decide) (by rfl) (by decide) (by decide) (by decide) (by decide) (by decide)
      (by decide)

/-! ## Exceptions propagate -/

theorem encloses_error {P : Type} [DecidableEq P] (ops : PathOps P) (fs : FileSystem P)
    (sp : List P) (outer inner : Call P) (h : Encloses ops fs sp outer inner)
    (e : ShaderPreprocessorExc) (st' : State P)
    (herr : inner.run ops fs sp = some (.error e, st')) :
    outer.run ops fs sp = some (.error e, st') := by
  obtain ⟨hnot, fullPath, pre, post, inc, m, a, hfull, hfile, hm, hfuel, hpre, hpath, hparent⟩ := h
  rw [Call.run, hfuel,
    parseRecursive_lines ops fs sp inner.fuel outer.path outer.parentPath outer.st hnot fullPath
      hfull _ hfile, whileGetline_append, hpre]
  simp only []
  apply whileGetline_include_error ops _ inc m hm
  rw [← hpath, ← hparent]
  exact herr

/-- C9: when the expansion of an include directive at any depth of nesting
    below an activation `outer` throws `e` (the activation `inner` is reached
    from `outer` through a chain of directives, each reached after the lines
    before it were processed, however many), `outer` throws exactly `e` and
    returns no text, in the state the throw left; when `outer` is the
    top-level call, `parse` throws `e`. -/
theorem error_propagates {P : Type} [DecidableEq P] (ops : PathOps P) (fs : FileSystem P)
    (sp : List P) (outer inner : Call P)
    (h : Relation.ReflTransGen (Encloses ops fs sp) outer inner)
    (e : ShaderPreprocessorExc) (st' : State P)
    (herr : inner.run ops fs sp = some (.error e, st')) :
    outer.run ops fs sp = some (.error e, st') ∧
    (outer.parentPath = ops.empty → outer.st = initState P →
      parse ops fs sp outer.fuel outer.path = some (.error e, st')) := by
  have hrun : outer.run ops fs sp = some (.error e, st') := by
    induction h using Relation.ReflTransGen.head_induction_on with
    | refl => exact herr
    | head hstep _ ih => exact encloses_error ops fs sp _ _ hstep e st' ih
  refine ⟨hrun, ?_⟩
  intro hparent hst
  rw [parse, ← hparent, ← hst]
  exact hrun

/-- C9 at a concrete input: `gone.glsl`, included at depth two after five
    lines of output were accumulated, is not found, and `parse` of `top.glsl`
    throws that very exception. -/
theorem error_propagates_witness :
    callTop.run textPaths fsNested [] = some (.error (notFoundExc textPaths "gone.glsl".toList),
        entered callGone.st "gone.glsl".toList [Event.probe "gone.glsl".toList]) ∧
    (callTop.parentPath = textPaths.empty → callTop.st = initState Str →
      parse textPaths fsNested [] callTop.fuel callTop.path
        = some (.error (notFoundExc textPaths "gone.glsl".toList),
            entered callGone.st "gone.glsl".toList [Event.probe "gone.glsl".toList])) :=
  error_propagates textPaths fsNested [] callTop callGone
    (Relation.ReflTransGen.head
      (⟨by decide, "top.glsl".toList, ["t1".toList, includeLib, "t2".toList], ["t3".toList],
        "#include \"mid.glsl\"".toList, "mid.glsl".toList, "t1\nc\n#line 2\n\nt2\n".toList,
        by decide, by decide, by decide, rfl, by rfl, rfl, rfl⟩ :
        Encloses textPaths fsNested [] callTop callMid)
      (Relation.ReflTransGen.single
        (⟨by decide, "mid.glsl".toList, ["m1".toList], ["m2".toList],
          "#include <gone.glsl>".toList, "gone.glsl".toList, "m1\n".toList,
          by decide, by decide, by decide, rfl, by rfl, rfl, rfl⟩ :
          Encloses textPaths fsNested [] callMid callGone)))
    (notFoundExc textPaths "gone.glsl".toList)
    (entered callGone.st "gone.glsl".toList [Event.probe "gone.glsl".toList]) (by rfl)

/-! ## The matcher on lines of the shape of a directive -/

theorem matchStar_const {R : Type} (a : Atom) (k : Nat → Str → Option R) (v : R)
    (hk : ∀ p r, k p r = some v) (pos : Nat) (rest : Str) :
    matchStar a k pos rest = some v := by
  induction rest generalizing pos with
  | nil => simp [matchStar, hk]
  | cons c cs ih =>
    rw [matchStar]
    split
    · rw [ih]
    · exact hk _ _

/-- A greedy run stops for good at the first character outside the class,
    when the continuation accepts nothing that starts inside the class. -/
theorem matchStar_run {R : Type} (a : Atom) (k : Nat → Str → Option R)
    (hk : ∀ p c cs, a.test c = true → k p (c :: cs) = none)
    (xs : Str) (hxs : ∀ x ∈ xs, a.test x = true)
    (ys : Str) (hys : ∀ y ys', ys = y :: ys' → a.test y = false) (pos : Nat) :
    matchStar a k pos (xs ++ ys) = k (pos + xs.length) ys := by
  induction xs generalizing pos with
  | nil =>
    cases ys with
    | nil => simp [matchStar]
    | cons y ys' => simp [matchStar, hys y ys' rfl]
  | cons x xs ih =>
    have hx : a.test x = true := hxs x (List.mem_cons_self _ _)
    rw [List.cons_append, matchStar, if_pos hx,
      ih (fun z hz => hxs z (List.mem_cons_of_mem _ hz)), hk pos x _ hx]
    have : pos + 1 + xs.length = pos + (x :: xs).length := by simp; omega
    rw [this]
    cases k (pos + (x :: xs).length) ys <;> rfl

/-- A greedy run fails when the continuation fails at every split of the
    run. -/
theorem matchStar_none {R : Type} (a : Atom) (k : Nat → Str → Option R)
    (xs ys : Str) (hys : ∀ y ys', ys = y :: ys' → a.test y = false)
    (hk : ∀ p i, i ≤ xs.length → k p (xs.drop i ++ ys) = none) (pos : Nat) :
    matchStar a k pos (xs ++ ys) = none := by
  induction xs generalizing pos with
  | nil =>
    have h0 : k pos ys = none := by simpa using hk pos 0 (Nat.le_refl _)
    cases ys with
    | nil => simpa [matchStar] using h0
    | cons y ys' => simpa [matchStar, hys y ys' rfl] using h0
  | cons x xs ih =>
    have h0 : k pos (x :: xs ++ ys) = none := by simpa using hk pos 0 (Nat.zero_le _)
    have hrest : ∀ p i, i ≤ xs.length → k p (xs.drop i ++ ys) = none := by
      intro p i hi
      simpa using hk p (i + 1) (by simpa using hi)
    rw [List.cons_append, matchStar]
    split
    · rw [ih hrest]
      exact h0
    · exact h0

/-- A success of the greedy run further right wins over the splits to its
    left. -/
theorem matchStar_skip {R : Type} (a : Atom) (k : Nat → Str → Option R)
    (u : Str) (hu : ∀ x ∈ u, a.test x = true) (rest : Str) (pos : Nat) (r : R)
    (h : matchStar a k (pos + u.length) rest = some r) :
    matchStar a k pos (u ++ rest) = some r := by
  induction u generalizing pos with
  | nil => simpa using h
  | cons x xs ih =>
    have hx : a.test x = true := hu x (List.mem_cons_self _ _)
    have h' : matchStar a k (pos + 1 + xs.length) rest = some r := by
      have : pos + 1 + xs.length = pos + (x :: xs).length := by simp; omega
      rw [this]
      exact h
    rw [List.cons_append, matchStar, if_pos hx,
      ih (fun z hz => hu z (List.mem_cons_of_mem _ hz)) (pos + 1) h']

theorem lit_run {R : Type} (s : Str) (k : Nat → Str → Option Str → Option R) (pos : Nat)
    (rest : Str) (cap : Option Str) :
    (Regex.lit s).run k pos (s ++ rest) cap = k (pos + s.length) rest cap := by
  induction s generalizing pos with
  | nil => simp [Regex.lit, Regex.cat, Regex.run]
  | cons c cs ih =>
    have : (Regex.lit (c :: cs)) = Regex.seq (Regex.one (Atom.chr c)) (Regex.lit cs) := rfl
    rw [this]
    simp only [Regex.run, List.cons_append, Atom.test, beq_self_eq_true, if_true]
    rw [ih]
    have : pos + 1 + cs.length = pos + (c :: cs).length := by simp; omega
    rw [this]

/-- The pattern starts with `^`: a match can only start at offset `0`. -/
theorem regex_search_anchored (line : Str) :
    regex_search line sIncludeRegex = sIncludeRegex.run acceptMatch 0 line none := by
  have hpos : ∀ (rest : Str) (pos : Nat),
      sIncludeRegex.run acceptMatch (pos + 1) rest none = none := by
    intro rest pos
    simp [sIncludeRegex, Regex.cat, Regex.run]
  have hfrom : ∀ (rest : Str) (pos : Nat), searchFrom sIncludeRegex (pos + 1) rest = none := by
    intro rest
    induction rest with
    | nil =>
      intro pos
      rw [searchFrom, hpos]
    | cons c cs ih =>
      intro pos
      rw [searchFrom, hpos, ih]
  cases line with
  | nil => rfl
  | cons c cs =>
    rw [regex_search, searchFrom, hfrom]
    cases sIncludeRegex.run acceptMatch 0 (c :: cs) none <;> rfl

theorem star_spaces_run {R : Type} (k : Nat → Str → Option Str → Option R) (pos i : Nat)
    (rest : Str) (cap : Option Str)
    (hrest : ∀ y ys, rest = y :: ys → y ≠ ' ')
    (hk : ∀ p cs, k p (' ' :: cs) cap = none) :
    (Regex.star (Atom.cls [' '])).run k pos (List.replicate i ' ' ++ rest) cap
      = k (pos + i) rest cap := by
  rw [Regex.run, matchStar_run (Atom.cls [' ']) _ _ (List.replicate i ' ') _ rest _ pos]
  · simp
  · intro p c cs hc
    have : c = ' ' := by simpa [Atom.test] using hc
    rw [this]
    exact hk p cs
  · intro x hx
    rw [List.eq_of_mem_replicate hx]
    rfl
  · intro y ys hy
    have := hrest y ys hy
    simpa [Atom.test] using this

theorem plus_spaces_run {R : Type} (k : Nat → Str → Option Str → Option R) (pos i : Nat)
    (rest : Str) (cap : Option Str)
    (hrest : ∀ y ys, rest = y :: ys → y ≠ ' ')
    (hk : ∀ p cs, k p (' ' :: cs) cap = none) :
    (Regex.plus (Atom.cls [' '])).run k pos (List.replicate (i + 1) ' ' ++ rest) cap
      = k (pos + (i + 1)) rest cap := by
  rw [List.replicate_succ, List.cons_append, Regex.run]
  simp only [Atom.test, List.contains_cons, beq_self_eq_true, Bool.true_or, if_true]
  have h := star_spaces_run k (pos + 1) i rest cap hrest hk
  rw [Regex.run] at h
  rw [h]
  have : pos + 1 + i = pos + (i + 1) := by omega
  rw [this]

/-- The capture group and what follows it: on `u`, a closing delimiter `c`,
    `v` without closing delimiter, then either the end of the line or a line
    terminator, the group captures `u`. -/
theorem group_run (pos : Nat) (u v t : Str) (c : Char) (cap : Option Str)
    (hc : c = '"' ∨ c = '>')
    (hu : ∀ x ∈ u, isLineTerminator x = false)
    (hv : ∀ x ∈ v, isLineTerminator x = false ∧ x ≠ '"' ∧ x ≠ '>')
    (ht : ∀ y ys, t = y :: ys → isLineTerminator y = true) :
    (Regex.cat [Regex.group (Regex.star Atom.dot), Regex.one (Atom.cls ['"', '>']),
        Regex.star Atom.dot]).run acceptMatch pos (u ++ (c :: v ++ t)) cap = some u := by
  simp only [Regex.cat, List.foldr, Regex.run]
  apply matchStar_skip Atom.dot _ u (by simpa [Atom.test] using hu)
  have hct : Atom.dot.test c = true := by
    rcases hc with rfl | rfl <;> decide
  have hcc : (Atom.cls ['"', '>']).test c = true := by
    rcases hc with rfl | rfl <;> decide
  have hterm : ∀ y ys, t = y :: ys → Atom.dot.test y = false := by
    intro y ys hy
    simp [Atom.test, ht y ys hy]
  rw [List.cons_append, matchStar, if_pos hct, matchStar_none Atom.dot _ v t hterm]
  · simp only [hcc, if_true]
    rw [matchStar_const Atom.dot _ (u : Str)]
    intro p r
    simp [acceptMatch]
  · intro p i _
    cases hd : v.drop i with
    | nil =>
      cases t with
      | nil => rfl
      | cons y ys =>
        have hy := ht y ys rfl
        have hno : (Atom.cls ['"', '>']).test y = false := by
          have h1 : y ≠ '"' := by
            rintro rfl
            exact absurd hy (by decide)
          have h2 : y ≠ '>' := by
            rintro rfl
            exact absurd hy (by decide)
          simp [Atom.test, h1, h2]
        simp [hno]
    | cons z zs =>
      have hzd : z ∈ v.drop i := by
        rw [hd]
        exact List.mem_cons_self _ _
      have hz : z ∈ v := List.mem_of_mem_drop hzd
      obtain ⟨_, h1, h2⟩ := hv z hz
      simp [Atom.test, h1, h2]

theorem one_run {R : Type} (a : Atom) (k : Nat → Str → Option Str → Option R) (pos : Nat)
    (c : Char) (rest : Str) (cap : Option Str) (h : a.test c = true) :
    (Regex.one a).run k pos (c :: rest) cap = k (pos + 1) rest cap := by
  simp [Regex.run, h]

/-- A line of the shape of a directive: `i` spaces, `#`, `j` spaces,
    `include`, `k + 1` spaces, an opening delimiter `o`, then `u`, a closing
    delimiter `c`, `v` without closing delimiter, and `t` empty or starting
    with a line terminator.  The line matches and group 1 is `u`: the
    capture ends at the last closing delimiter before the end of the line. -/
theorem regex_search_directive (i j k : Nat) (o c : Char) (u v t : Str)
    (ho : o = '"' ∨ o = '<') (hc : c = '"' ∨ c = '>')
    (hu : ∀ x ∈ u, isLineTerminator x = false)
    (hv : ∀ x ∈ v, isLineTerminator x = false ∧ x ≠ '"' ∧ x ≠ '>')
    (ht : ∀ y ys, t = y :: ys → isLineTerminator y = true) :
    regex_search
      (List.replicate i ' ' ++ '#' :: (List.replicate j ' ' ++ ("include".toList ++
        (List.replicate (k + 1) ' ' ++ o :: (u ++ (c :: v ++ t))))))
      sIncludeRegex = some u := by
  have hshape : sIncludeRegex
      = Regex.seq Regex.bol (Regex.seq (Regex.star (Atom.cls [' ']))
        (Regex.seq (Regex.one (Atom.chr '#')) (Regex.seq (Regex.star (Atom.cls [' ']))
        (Regex.seq (Regex.lit "include".toList) (Regex.seq (Regex.plus (Atom.cls [' ']))
        (Regex.seq (Regex.one (Atom.cls ['"', '<']))
          (Regex.cat [Regex.group (Regex.star Atom.dot), Regex.one (Atom.cls ['"', '>']),
            Regex.star Atom.dot]))))))) := rfl
  have hopen : (Atom.cls ['"', '<']).test o = true := by
    rcases ho with rfl | rfl <;> decide
  have hosp : o ≠ ' ' := by
    rcases ho with rfl | rfl <;> decide
  rw [regex_search_anchored, hshape, Regex.run, Regex.run, if_pos rfl, Regex.run,
    star_spaces_run _ 0 i _ none (by
      intro y ys h
      simp only [List.cons.injEq] at h
      rw [← h.1]
      decide) (by
      intro p cs
      simp [Regex.run, Atom.test]),
    Regex.run, one_run _ _ _ _ _ _ (by decide), Regex.run,
    star_spaces_run _ _ j _ none (by
      intro y ys h
      simp only [String.toList, List.cons_append, List.cons.injEq] at h
      rw [← h.1]
      decide) (by
      intro p cs
      simp [Regex.lit, Regex.cat, Regex.run, Atom.test]),
    Regex.run, lit_run, Regex.run,
    plus_spaces_run _ _ k _ none (by
      intro y ys h
      simp only [List.cons.injEq] at h
      rw [← h.1]
      exact hosp) (by
      intro p cs
      simp [Regex.run, Atom.test]),
    Regex.run, one_run _ _ _ _ _ _ hopen, group_run _ u v t c none hc hu hv ht]

/-- The text after the closing delimiter is ignored when it contains no
    double quote and no `>`: the path `p` (without quote, bracket or line
    terminator) is captured from `#include "p"t` and from `#include <p>t`. -/
theorem regex_search_trailing (p t : Str)
    (hp : ∀ x ∈ p, isLineTerminator x = false)
    (ht : ∀ x ∈ t, isLineTerminator x = false ∧ x ≠ '"' ∧ x ≠ '>') :
    regex_search ("#include \"".toList ++ p ++ '"' :: t) sIncludeRegex = some p ∧
    regex_search ("#include <".toList ++ p ++ '>' :: t) sIncludeRegex = some p := by
  constructor
  · have h := regex_search_directive 0 0 0 '"' '"' p t [] (Or.inl rfl) (Or.inl rfl) hp ht
      (by simp)
    simpa using h
  · have h := regex_search_directive 0 0 0 '<' '>' p t [] (Or.inr rfl) (Or.inr rfl) hp ht
      (by simp)
    simpa using h

/-! ## Text after the closing delimiter -/

/-- C10, at the failing input: on the line `#include "lib.glsl" // "the
    library"` the path captured is not `lib.glsl` but everything up to the
    last double quote of the line, and likewise up to the last `>` with angle
    brackets; `parse` of a file with that line, `lib.glsl` being beside it,
    throws the not-found exception for the over-long path. -/
theorem include_trailing_delimiter_captured :
    regex_search "#include \"lib.glsl\" // \"the library\"".toList sIncludeRegex
        = some "lib.glsl\" // \"the library".toList ∧
    regex_search "#include <lib.glsl> // a > b".toList sIncludeRegex
        = some "lib.glsl> // a ".toList ∧
    (parse textPaths fsTrailing [] 2 "main.glsl".toList).map (fun r => r.1)
        = some (.error ⟨("could not find shader with include path: "
            ++ "lib.glsl\" // \"the library").toList⟩) := by
  refine ⟨by decide, by decide, by rfl⟩

/-! ## The cycle check comes first -/

theorem circularExc_ne_notFoundExc {P : Type} (ops : PathOps P) (p q : P) :
    circularExc ops p ≠ notFoundExc ops q := by
  intro h
  have h2 := congrArg (fun e => e.what.take 2) h
  change (['c', 'i'] : List Char) = ['c', 'o'] at h2
  exact absurd h2 (by decide)

theorem circularExc_ne_openExc {P : Type} (ops : PathOps P) (p q : P) :
    circularExc ops p ≠ openExc ops q := by
  intro h
  have h2 := congrArg (fun e => e.what.take 1) h
  change (['c'] : List Char) = ['F'] at h2
  exact absurd h2 (by decide)

theorem openExc_ne_notFoundExc {P : Type} (ops : PathOps P) (p q : P) :
    openExc ops p ≠ notFoundExc ops q := by
  intro h
  have h2 := congrArg (fun e => e.what.take 1) h
  change (['F'] : List Char) = ['c'] at h2
  exact absurd h2 (by decide)

/-- C16: for a path already in `includeTree`, `parseRecursive` throws the
    circular include exception carrying that path, whatever the parent
    directory, the search paths and the filesystem are, and leaves the state
    as it was: no lookup and no opening is recorded.  The exception is
    neither the not-found nor the cannot-open exception, also when the path
    resolves nowhere or to a file that cannot be opened. -/
theorem cycle_check_first {P : Type} [DecidableEq P] (ops : PathOps P) (fs : FileSystem P)
    (sp : List P) (fuel : Nat) (path parentPath : P) (st : State P)
    (h : path ∈ st.includeTree) :
    parseRecursive ops fs sp (fuel + 1) path parentPath st
      = some (.error (circularExc ops path), st) ∧
    (circularExc ops path).what = "circular include found, path: ".toList ++ ops.string path ∧
    (∀ q, circularExc ops path ≠ notFoundExc ops q) ∧
    (∀ q, circularExc ops path ≠ openExc ops q) :=
  ⟨parseRecursive_circular ops fs sp fuel path parentPath st h, rfl,
    fun q => circularExc_ne_notFoundExc ops path q,
    fun q => circularExc_ne_openExc ops path q⟩

/-- C16 at a concrete input: `ghost.glsl` is in `includeTree` and exists
    nowhere (the filesystem is empty); the call throws the circular include
    exception and records no access. -/
theorem cycle_check_first_witness :
    parseRecursive textPaths (tableFS []) ["assets".toList] 1 "ghost.glsl".toList
        "nowhere".toList stGhost
      = some (.error ⟨"circular include found, path: ghost.glsl".toList⟩, stGhost) ∧
    (findFullPath textPaths (tableFS []) ["assets".toList] "ghost.glsl".toList
        "nowhere".toList).1 = .error (notFoundExc textPaths "ghost.glsl".toList) :=
  ⟨(cycle_check_first textPaths (tableFS []) ["assets".toList] 0 "ghost.glsl".toList
    "nowhere".toList stGhost (by decide)).1, by decide⟩

/-! ## Diamond includes -/

/-- C17: `A` (the root, path `a`) includes `B` and later `C`, `B` includes
    `D`, `C` includes `D`, `D` has no directive; the four paths are distinct
    and each file is found and readable (`B` has no other directive, and no
    directive of `A` or `C` comes before the ones named).  Then `parse` of
    `a` throws the circular include exception carrying the path of `D`: `A`,
    `B`, `D` and `C` are opened, in this order and once each, and the
    directive of `C` finds the path of `D` still in `includeTree`. -/
theorem parse_diamond {P : Type} [DecidableEq P] (ops : PathOps P) (fs : FileSystem P)
    (sp : List P) (a LA LB LC LD : P) (mb mc md md2 : Str)
    (preA midA postA preB postB preC postC bodyD : List Str) (incB incC incD incD2 : Str)
    (hba : ops.ofString mb ≠ a) (hca : ops.ofString mc ≠ a)
    (hcb : ops.ofString mc ≠ ops.ofString mb) (hda : ops.ofString md ≠ a)
    (hdb : ops.ofString md ≠ ops.ofString mb) (hcd : ops.ofString mc ≠ ops.ofString md)
    (hLA : (findFullPath ops fs sp a ops.empty).1 = .ok LA)
    (hLB : (findFullPath ops fs sp (ops.ofString mb) (ops.parent_path LA)).1 = .ok LB)
    (hLC : (findFullPath ops fs sp (ops.ofString mc) (ops.parent_path LA)).1 = .ok LC)
    (hLD : (findFullPath ops fs sp (ops.ofString md) (ops.parent_path LB)).1 = .ok LD)
    (hA : fs.ifstream LA = some (preA ++ incB :: (midA ++ incC :: postA)))
    (hB : fs.ifstream LB = some (preB ++ incD :: postB))
    (hC : fs.ifstream LC = some (preC ++ incD2 :: postC))
    (hD : fs.ifstream LD = some bodyD)
    (hpreA : ∀ l ∈ preA, regex_search l sIncludeRegex = none)
    (hmidA : ∀ l ∈ midA, regex_search l sIncludeRegex = none)
    (hpreB : ∀ l ∈ preB, regex_search l sIncludeRegex = none)
    (hpostB : ∀ l ∈ postB, regex_search l sIncludeRegex = none)
    (hpreC : ∀ l ∈ preC, regex_search l sIncludeRegex = none)
    (hbodyD : ∀ l ∈ bodyD, regex_search l sIncludeRegex = none)
    (hincB : regex_search incB sIncludeRegex = some mb)
    (hincC : regex_search incC sIncludeRegex = some mc)
    (hincD : regex_search incD sIncludeRegex = some md)
    (hincD2 : regex_search incD2 sIncludeRegex = some md2)
    (hsame : ops.ofString md2 = ops.ofString md)
    (fuel : Nat) (hfuel : 3 ≤ fuel) :
    ∃ st : State P,
      parse ops fs sp fuel a = some (.error (circularExc ops (ops.ofString md)), st) ∧
      opened st.log = [LA, LB, LD, LC] := by
  obtain ⟨f, rfl⟩ : ∃ f, fuel = f + 3 := ⟨fuel - 3, by omega⟩
  have hr : a ∉ (initState P).includeTree := by simp [initState]
  -- the expansion of `B`, which inlines `D`
  have hB1 : ops.ofString mb ∉ (entered (initState P) a
      ((findFullPath ops fs sp a ops.empty).2 ++ [Event.openFile LA])).includeTree := by
    simp [entered, initState, hba]
  have hD1 : ops.ofString md ∉ (entered (entered (initState P) a
      ((findFullPath ops fs sp a ops.empty).2 ++ [Event.openFile LA])) (ops.ofString mb)
      ((findFullPath ops fs sp (ops.ofString mb) (ops.parent_path LA)).2
        ++ [Event.openFile LB])).includeTree := by
    simp [entered, initState, hda, hdb]
  have hcallB := parseRecursive_lines ops fs sp (f + 1) (ops.ofString mb) (ops.parent_path LA) _
    hB1 LB hLB _ hB
  rw [whileGetline_plain ops _ preB hpreB,
    whileGetline_include_ok ops _ incD md hincD _ _ _
      (parseRecursive_leaf ops fs sp f (ops.ofString md) (ops.parent_path LB) _ hD1 LD hLD bodyD
        hD hbodyD),
    whileGetline_all_plain ops _ postB hpostB] at hcallB
  -- the expansion of `C`, which stops at its directive for `D`
  have hC1 : ops.ofString mc ∉ (entered (entered (entered (initState P) a
      ((findFullPath ops fs sp a ops.empty).2 ++ [Event.openFile LA])) (ops.ofString mb)
      ((findFullPath ops fs sp (ops.ofString mb) (ops.parent_path LA)).2
        ++ [Event.openFile LB])) (ops.ofString md)
      ((findFullPath ops fs sp (ops.ofString md) (ops.parent_path LB)).2
        ++ [Event.openFile LD])).includeTree := by
    simp [entered, initState, hca, hcb, hcd]
  have hcallC := parseRecursive_lines ops fs sp (f + 1) (ops.ofString mc) (ops.parent_path LA) _
    hC1 LC hLC _ hC
  rw [whileGetline_plain ops _ preC hpreC,
    whileGetline_include_error ops _ incD2 md2 hincD2 _ _ (circularExc ops (ops.ofString md))
      (by
        rw [hsame]
        apply parseRecursive_circular
        simp [entered])] at hcallC
  have hcallA := parseRecursive_lines ops fs sp (f + 2) a ops.empty (initState P) hr LA hLA _ hA
  rw [whileGetline_plain ops _ preA hpreA,
    whileGetline_include_ok ops _ incB mb hincB _ _ _ hcallB,
    whileGetline_plain ops _ midA hmidA,
    whileGetline_include_error ops _ incC mc hincC _ _ _ hcallC] at hcallA
  exact ⟨_, hcallA, by simp [entered, initState, opened_append, opened_findFullPath, opened]⟩

/-- C17 at the diamond of four files in one directory. -/
theorem parse_diamond_witness :
    ∃ st : State Str,
      parse textPaths fsDiamond [] 3 "A.glsl".toList
        = some (.error (circularExc textPaths (textPaths.ofString "D.glsl".toList)), st) ∧
      opened st.log
        = ["A.glsl".toList, "B.glsl".toList, "D.glsl".toList, "C.glsl".toList] :=
  parse_diamond textPaths fsDiamond [] "A.glsl".toList "A.glsl".toList "B.glsl".toList
    "C.glsl".toList "D.glsl".toList "B.glsl".toList "C.glsl".toList "D.glsl".toList
    "D.glsl".toList ["// A".toList] ["a".toList] ["z".toList] [] ["b".toList] ["c".toList] []
    ["d".toList] "#include \"B.glsl\"".toList "#include \"C.glsl\"".toList
    "#include \"D.glsl\"".toList "#include \"D.glsl\"".toList
    (by decide) (by decide) (by decide) (by decide) (by decide) (by decide)
    (by decide) (by decide) (by decide) (by decide)
    (by decide) (by decide) (by decide) (by decide)
    (by decide) (by decide) (by decide) (by decide) (by decide) (by decide)
    (by decide) (by decide) (by decide) (by decide) (by decide) 3 (by decide)

/-! ## The directory nested includes are resolved in -/

/-- C18: when the file of a call was found at `L` (beside its parent or in a
    search path), its lines are processed with every recursive call given the
    directory of `L` as parent directory; `findFullPath` in that directory
    returns `dir(L) / q` whenever it exists, and then looks at no search path.
    So a directive for `q` (not yet in `includeTree`) with a readable,
    directive-free file at `dir(L) / q` inlines that file, whatever the
    search paths hold. -/
theorem nested_include_resolution {P : Type} [DecidableEq P] (ops : PathOps P)
    (fs : FileSystem P) (sp : List P) (fuel : Nat) (path parentPath L : P) (st : State P)
    (lines : List Str) (hnot : path ∉ st.includeTree)
    (hL : (findFullPath ops fs sp path parentPath).1 = .ok L)
    (hfile : fs.ifstream L = some lines) :
    parseRecursive ops fs sp (fuel + 1) path parentPath st
      = whileGetline ops (fun q s => parseRecursive ops fs sp fuel q (ops.parent_path L) s)
          lines 1 []
          (entered st path
            ((findFullPath ops fs sp path parentPath).2 ++ [Event.openFile L])) ∧
    (∀ q, fs.fs_exists (ops.join (ops.parent_path L) q) = true →
      findFullPath ops fs sp q (ops.parent_path L)
        = (.ok (ops.join (ops.parent_path L) q),
            [Event.probe (ops.join (ops.parent_path L) q)])) ∧
    (∀ (pre post body : List Str) (inc m : Str), lines = pre ++ inc :: post →
      (∀ l ∈ pre, regex_search l sIncludeRegex = none) →
      regex_search inc sIncludeRegex = some m →
      ops.ofString m ≠ path → ops.ofString m ∉ st.includeTree →
      fs.fs_exists (ops.join (ops.parent_path L) (ops.ofString m)) = true →
      fs.ifstream (ops.join (ops.parent_path L) (ops.ofString m)) = some body →
      (∀ l ∈ body, regex_search l sIncludeRegex = none) →
      parseRecursive ops fs sp (fuel + 2) path parentPath st
        = whileGetline ops
            (fun q s => parseRecursive ops fs sp (fuel + 1) q (ops.parent_path L) s)
            post (pre.length + 2)
            (withTerminators pre ++ withTerminators body ++ lineMarker (pre.length + 1)
              ++ ['\n'])
            (entered
              (entered st path
                ((findFullPath ops fs sp path parentPath).2 ++ [Event.openFile L]))
              (ops.ofString m)
              [Event.probe (ops.join (ops.parent_path L) (ops.ofString m)),
                Event.openFile (ops.join (ops.parent_path L) (ops.ofString m))])) := by
  refine ⟨parseRecursive_lines ops fs sp fuel path parentPath st hnot L hL lines hfile,
    fun q hq => findFullPath_parent ops fs sp q (ops.parent_path L) hq, ?_⟩
  intro pre post body inc m hlines hpre hinc hne hnew hex hbody hplain
  have hres := findFullPath_parent ops fs sp (ops.ofString m) (ops.parent_path L) hex
  have hq : ops.ofString m ∉ (entered st path
      ((findFullPath ops fs sp path parentPath).2 ++ [Event.openFile L])).includeTree := by
    simp [entered, hne, hnew]
  have hleaf := parseRecursive_leaf ops fs sp fuel (ops.ofString m) (ops.parent_path L) _ hq
    (ops.join (ops.parent_path L) (ops.ofString m)) (by rw [hres]) body hbody hplain
  rw [hres] at hleaf
  rw [parseRecursive_lines ops fs sp (fuel + 1) path parentPath st hnot L hL lines hfile,
    hlines, whileGetline_plain ops _ pre hpre,
    whileGetline_include_ok ops _ inc m hinc _ _ _ hleaf]
  simp [Nat.add_comm, Nat.add_left_comm]

/-- C18 at a concrete input: `sub/top.glsl` is found through `assets`, at
    `assets/sub/top.glsl`; its directive for `lib.glsl` inlines
    `assets/sub/lib.glsl` (`near`), not `assets/lib.glsl` nor `lib.glsl`. -/
theorem nested_include_resolution_witness :
    (parse textPaths fsNear ["assets".toList] 2 "sub/top.glsl".toList).map (fun r => r.1)
      = some (.ok "t\nnear\n#line 2\n\n".toList) := by
  have h := (nested_include_resolution textPaths fsNear ["assets".toList] 0
    "sub/top.glsl".toList [] "assets/sub/top.glsl".toList (initState Str)
    ["t".toList, includeLib] (by decide) (by decide) (by decide)).2.2
    ["t".toList] [] ["near".toList] includeLib "lib.glsl".toList rfl (by decide) (by decide)
    (by decide) (by decide) (by decide) (by decide) (by decide)
  rw [parse, show textPaths.empty = ([] : Str) from rfl, h]
  rfl

/-! ## The cannot-open exception -/

theorem findFullPath_ok {P : Type} (ops : PathOps P) (fs : FileSystem P) (sp : List P)
    (path parentPath L : P) (h : (findFullPath ops fs sp path parentPath).1 = .ok L) :
    fs.fs_exists L = true ∧ (L = ops.join parentPath path ∨ ∃ s ∈ sp, L = ops.join s path) := by
  by_cases h1 : fs.fs_exists (ops.join parentPath path) = true
  · rw [findFullPath_parent ops fs sp path parentPath h1] at h
    simp at h
    rw [← h]
    exact ⟨h1, Or.inl rfl⟩
  · have h1' : fs.fs_exists (ops.join parentPath path) = false := by simpa using h1
    rw [findFullPath_search ops fs sp path parentPath h1'] at h
    obtain ⟨s, hs, hex, hL⟩ := findInSearchPaths_ok ops fs path sp L h
    rw [hL]
    exact ⟨hex, Or.inr ⟨s, hs, rfl⟩⟩

theorem findFullPath_error {P : Type} (ops : PathOps P) (fs : FileSystem P) (sp : List P)
    (path parentPath : P) (e : ShaderPreprocessorExc)
    (h : (findFullPath ops fs sp path parentPath).1 = .error e) : e = notFoundExc ops path := by
  by_cases h1 : fs.fs_exists (ops.join parentPath path) = true
  · rw [findFullPath_parent ops fs sp path parentPath h1] at h
    simp at h
  · have h1' : fs.fs_exists (ops.join parentPath path) = false := by simpa using h1
    rw [findFullPath_search ops fs sp path parentPath h1'] at h
    exact (findInSearchPaths_error ops fs path sp e h).1

/-- An exception that leaves the loop was thrown by the recursive call for
    one of the directives, reached after the lines before it were processed
    without exception. -/
theorem whileGetline_error_split {P : Type} (ops : PathOps P)
    (recurse : P → State P → Outcome P) (lines : List Str) (n : Nat) (out : Str)
    (st st' : State P) (e : ShaderPreprocessorExc)
    (h : whileGetline ops recurse lines n out st = some (.error e, st')) :
    ∃ (pre post : List Str) (inc m a : Str) (sa : State P),
      lines = pre ++ inc :: post ∧ regex_search inc sIncludeRegex = some m ∧
      whileGetline ops recurse pre n out st = some (.ok a, sa) ∧
      recurse (ops.ofString m) sa = some (.error e, st') := by
  induction lines generalizing n out st with
  | nil => simp [whileGetline] at h
  | cons l ls ih =>
    rw [whileGetline] at h
    cases hm : regex_search l sIncludeRegex with
    | none =>
      rw [hm] at h
      obtain ⟨pre, post, inc, m, a, sa, hl, hinc, hpre, hcall⟩ := ih _ _ _ h
      refine ⟨l :: pre, post, inc, m, a, sa, by rw [hl]; rfl, hinc, ?_, hcall⟩
      rw [whileGetline, hm]
      exact hpre
    | some m0 =>
      rw [hm] at h
      simp only [] at h
      cases hr : recurse (ops.ofString m0) st with
      | none => simp [hr] at h
      | some x =>
        obtain ⟨x1, s1⟩ := x
        cases x1 with
        | error e1 =>
          simp [hr] at h
          refine ⟨[], ls, l, m0, out, st, rfl, hm, rfl, ?_⟩
          rw [hr, h.1, h.2]
        | ok text =>
          rw [hr] at h
          obtain ⟨pre, post, inc, m, a, sa, hl, hinc, hpre, hcall⟩ := ih _ _ _ h
          refine ⟨l :: pre, post, inc, m, a, sa, by rw [hl]; rfl, hinc, ?_, hcall⟩
          rw [whileGetline, hm]
          simp only []
          rw [hr]
          exact hpre

/-- A message that starts with `Failed to open file at path: ` is neither
    that of the circular include exception nor that of the not-found
    exception. -/
theorem open_message_first (e : ShaderPreprocessorExc)
    (hmsg : "Failed to open file at path: ".toList <+: e.what) : e.what.take 1 = ['F'] := by
  obtain ⟨t, ht⟩ := hmsg
  rw [← ht]
  rfl

/-- Whenever an activation throws an exception whose message starts with
    `Failed to open file at path: `, the activation that threw it is this one
    or one reached from it through a chain of directives; that activation was
    entered with its path not in `includeTree`, its path resolved to an
    existing location `L`, `L` could not be opened, the exception is the one
    for `L`, and the state left is the one in which `L` was just tried. -/
theorem open_error_thrower {P : Type} [DecidableEq P] (ops : PathOps P)
    (fs : FileSystem P) (sp : List P) (fuel : Nat) :
    ∀ (outer : Call P), outer.fuel = fuel →
      ∀ (e : ShaderPreprocessorExc) (st' : State P),
      outer.run ops fs sp = some (.error e, st') →
      "Failed to open file at path: ".toList <+: e.what →
      ∃ (inner : Call P) (L : P),
        Relation.ReflTransGen (Encloses ops fs sp) outer inner ∧
        inner.run ops fs sp = some (.error e, st') ∧
        inner.path ∉ inner.st.includeTree ∧
        (findFullPath ops fs sp inner.path inner.parentPath).1 = .ok L ∧
        fs.fs_exists L = true ∧ fs.ifstream L = none ∧ e = openExc ops L ∧
        st' = entered inner.st inner.path
          ((findFullPath ops fs sp inner.path inner.parentPath).2 ++ [Event.openFile L]) := by
  induction fuel with
  | zero =>
    intro outer hfuel e st' h
    obtain ⟨k, path, parentPath, st⟩ := outer
    simp only at hfuel
    subst hfuel
    simp [Call.run, parseRecursive] at h
  | succ f ih =>
    intro outer hfuel e st' h hmsg
    obtain ⟨k, path, parentPath, st⟩ := outer
    simp only at hfuel
    subst hfuel
    have hfirst := open_message_first e hmsg
    have hrun := h
    rw [Call.run] at h
    simp only at h
    by_cases hin : path ∈ st.includeTree
    · rw [parseRecursive_circular ops fs sp f path parentPath st hin] at h
      simp at h
      rw [← h.1] at hfirst
      exact absurd hfirst (by
        change (['c'] : List Char) ≠ ['F']
        decide)
    · cases hf : (findFullPath ops fs sp path parentPath).1 with
      | error e1 =>
        rw [parseRecursive_unresolved ops fs sp f path parentPath st hin e1 hf] at h
        simp at h
        rw [← h.1, findFullPath_error ops fs sp path parentPath e1 hf] at hfirst
        exact absurd hfirst (by
          change (['c'] : List Char) ≠ ['F']
          decide)
      | ok L =>
        cases ho : fs.ifstream L with
        | none =>
          rw [parseRecursive_unopened ops fs sp f path parentPath st hin L hf ho] at h
          simp at h
          exact ⟨⟨f + 1, path, parentPath, st⟩, L, Relation.ReflTransGen.refl, hrun, hin, hf,
            (findFullPath_ok ops fs sp path parentPath L hf).1, ho, h.1.symm, h.2.symm⟩
        | some lines =>
          rw [parseRecursive_lines ops fs sp f path parentPath st hin L hf lines ho] at h
          obtain ⟨pre, post, inc, m, a, sa, hl, hinc, hpre, hcall⟩ :=
            whileGetline_error_split ops _ lines 1 [] _ st' e h
          have henc : Encloses ops fs sp ⟨f + 1, path, parentPath, st⟩
              ⟨f, ops.ofString m, ops.parent_path L, sa⟩ :=
            ⟨hin, L, pre, post, inc, m, a, hf, by rw [ho, hl], hinc, rfl, hpre, rfl, rfl⟩
          obtain ⟨inner, L2, hchain, hrest⟩ :=
            ih ⟨f, ops.ofString m, ops.parent_path L, sa⟩ rfl e st' hcall hmsg
          exact ⟨inner, L2, Relation.ReflTransGen.head henc hchain, hrest⟩

/-- C19: a call for a path that is not in `includeTree` and resolves to an
    existing location `L` (the candidate beside the parent, or the one in a
    search path) that cannot be opened throws the cannot-open exception,
    whose message ends in the string of `L`, not of the include path, and
    which differs from every not-found exception.  Conversely, when an
    activation throws an exception with that message, the activation that
    threw it (this one, or one it reached through a chain of directives) was
    entered with its path not in `includeTree`, resolved it to an existing
    location that could not be opened, and threw the exception for that
    location; in particular a call for a path that is in `includeTree`
    never throws it. -/
theorem cannot_open_error {P : Type} [DecidableEq P] (ops : PathOps P) (fs : FileSystem P)
    (sp : List P) :
    (∀ (fuel : Nat) (path parentPath L : P) (st : State P), path ∉ st.includeTree →
      (findFullPath ops fs sp path parentPath).1 = .ok L → fs.ifstream L = none →
      parseRecursive ops fs sp (fuel + 1) path parentPath st
          = some (.error (openExc ops L),
              entered st path
                ((findFullPath ops fs sp path parentPath).2 ++ [Event.openFile L])) ∧
        (openExc ops L).what = "Failed to open file at path: ".toList ++ ops.string L ∧
        (∀ q, openExc ops L ≠ notFoundExc ops q) ∧
        fs.fs_exists L = true ∧
        (L = ops.join parentPath path ∨ ∃ s ∈ sp, L = ops.join s path)) ∧
    (∀ (outer : Call P) (e : ShaderPreprocessorExc) (st' : State P),
      outer.run ops fs sp = some (.error e, st') →
      "Failed to open file at path: ".toList <+: e.what →
      ∃ (inner : Call P) (L : P),
        Relation.ReflTransGen (Encloses ops fs sp) outer inner ∧
        inner.run ops fs sp = some (.error e, st') ∧
        inner.path ∉ inner.st.includeTree ∧
        (findFullPath ops fs sp inner.path inner.parentPath).1 = .ok L ∧
        fs.fs_exists L = true ∧ fs.ifstream L = none ∧ e = openExc ops L ∧
        st' = entered inner.st inner.path
          ((findFullPath ops fs sp inner.path inner.parentPath).2 ++ [Event.openFile L])) ∧
    (∀ (fuel : Nat) (path parentPath : P) (st st' : State P) (e : ShaderPreprocessorExc),
      path ∈ st.includeTree →
      parseRecursive ops fs sp fuel path parentPath st = some (.error e, st') →
      ¬ ("Failed to open file at path: ".toList <+: e.what)) := by
  refine ⟨?_, fun outer => open_error_thrower ops fs sp outer.fuel outer rfl, ?_⟩
  · intro fuel path parentPath L st hnot hL ho
    have hok := findFullPath_ok ops fs sp path parentPath L hL
    exact ⟨parseRecursive_unopened ops fs sp fuel path parentPath st hnot L hL ho, rfl,
      fun q => openExc_ne_notFoundExc ops L q, hok.1, hok.2⟩
  · intro fuel path parentPath st st' e hin h hmsg
    have hfirst := open_message_first e hmsg
    cases fuel with
    | zero => simp [parseRecursive] at h
    | succ f =>
      rw [parseRecursive_circular ops fs sp f path parentPath st hin] at h
      simp at h
      rw [← h.1] at hfirst
      exact absurd hfirst (by
        change (['c'] : List Char) ≠ ['F']
        decide)

/-- C19 at a concrete input: `locked.glsl` exists and cannot be opened; the
    call for it throws the cannot-open exception naming `locked.glsl`; so
    does `parse` of the `main.glsl` that includes it, and the activation that
    threw is found; a call for `locked.glsl` when it is already in
    `includeTree` throws another exception. -/
theorem cannot_open_error_witness :
    parseRecursive textPaths fsLocked [] 1 "locked.glsl".toList [] (initState Str)
        = some (.error ⟨"Failed to open file at path: locked.glsl".toList⟩,
            entered (initState Str) "locked.glsl".toList
              ((findFullPath textPaths fsLocked [] "locked.glsl".toList []).2
                ++ [Event.openFile "locked.glsl".toList])) ∧
    (∃ (inner : Call Str) (L : Str),
        Relation.ReflTransGen (Encloses textPaths fsLocked []) callLockedMain inner ∧
        inner.run textPaths fsLocked []
          = some (.error ⟨"Failed to open file at path: locked.glsl".toList⟩, stLockedEnd) ∧
        inner.path ∉ inner.st.includeTree ∧
        (findFullPath textPaths fsLocked [] inner.path inner.parentPath).1 = .ok L ∧
        fsLocked.fs_exists L = true ∧ fsLocked.ifstream L = none ∧
        (⟨"Failed to open file at path: locked.glsl".toList⟩ : ShaderPreprocessorExc)
          = openExc textPaths L ∧
        stLockedEnd = entered inner.st inner.path
          ((findFullPath textPaths fsLocked [] inner.path inner.parentPath).2
            ++ [Event.openFile L])) ∧
    ¬ ("Failed to open file at path: ".toList <+:
        (circularExc textPaths "locked.glsl".toList).what) :=
  ⟨((cannot_open_error textPaths fsLocked []).1 0 "locked.glsl".toList [] "locked.glsl".toList
      (initState Str) (by decide) (by decide) (by decide)).1,
    (cannot_open_error textPaths fsLocked []).2.1 callLockedMain
      ⟨"Failed to open file at path: locked.glsl".toList⟩ stLockedEnd (by rfl)
      ⟨"locked.glsl".toList, by rfl⟩,
    (cannot_open_error textPaths fsLocked []).2.2 1 "locked.glsl".toList [] stLockedEnd
      stLockedEnd (circularExc textPaths "locked.glsl".toList) (by decide) (by rfl)⟩

/-! ## The cycle check compares include paths as written -/

/-- C20: a directive whose path is in `includeTree` (a call for that path
    was made earlier in this `parse`, whether it has returned or is still in
    progress) makes the loop throw the circular include exception for that
    path, in whatever directory the line is read and whatever is in the
    filesystem: the state is left as it was, so the path is not even looked
    up from the directory of the including file, where it may name another
    file than the one expanded before.  A call that has returned leaves its
    path in `includeTree`. -/
theorem cycle_by_include_string {P : Type} [DecidableEq P] (ops : PathOps P)
    (fs : FileSystem P) (sp : List P) (fuel : Nat) (dir : P) (st : State P) (line m : Str)
    (more : List Str) (n : Nat) (out : Str)
    (hm : regex_search line sIncludeRegex = some m)
    (hin : ops.ofString m ∈ st.includeTree) :
    whileGetline ops (fun p s => parseRecursive ops fs sp (fuel + 1) p dir s) (line :: more)
        n out st
      = some (.error (circularExc ops (ops.ofString m)), st) ∧
    (∀ (k : Nat) (q parent0 : P) (st0 st1 : State P) (r : Except ShaderPreprocessorExc Str),
      parseRecursive ops fs sp k q parent0 st0 = some (r, st1) → q ∈ st1.includeTree) := by
  refine ⟨?_, fun k q parent0 st0 st1 r h =>
    (parseRecursive_includeTree ops fs sp k q parent0 st0 r st1 h).2⟩
  exact whileGetline_include_error ops _ line m hm st st _
    (parseRecursive_circular ops fs sp fuel (ops.ofString m) dir st hin) more n out

/-- C20 at the example: `common.glsl` is found at `a/common.glsl` and includes
    `sub/y.glsl`, whose directive for `common.glsl`, read in `a/sub` where the
    other file `a/sub/common.glsl` exists, throws the circular include
    exception; so does `parse`. -/
theorem cycle_by_include_string_witness :
    whileGetline textPaths (fun p s => parseRecursive textPaths fsCommon ["a".toList] 1 p
          "a/sub".toList s) ["#include \"common.glsl\"".toList] 2 "y\n".toList stCommon
        = some (.error (circularExc textPaths "common.glsl".toList), stCommon) ∧
    (findFullPath textPaths fsCommon ["a".toList] "common.glsl".toList "a/sub".toList).1
        = .ok "a/sub/common.glsl".toList ∧
    parse textPaths fsCommon ["a".toList] 3 "common.glsl".toList
        = some (.error ⟨"circular include found, path: common.glsl".toList⟩, stCommon) :=
  ⟨(cycle_by_include_string textPaths fsCommon ["a".toList] 0 "a/sub".toList stCommon
      "#include \"common.glsl\"".toList "common.glsl".toList [] 2 "y\n".toList (by decide)
      (by decide)).1, by decide, by rfl⟩

/-! ## Lines of the shape of a directive, in general -/

/-- The general positive case: gaps of spaces (at least one before the
    opening delimiter), any opening and closing delimiter, a path without line
    terminator, trailing text without closing delimiter. -/
theorem regex_search_directiveLine (i j k : Nat) (o c : Char) (p t : Str)
    (ho : o = '"' ∨ o = '<') (hc : c = '"' ∨ c = '>')
    (hp : ∀ x ∈ p, isLineTerminator x = false)
    (ht : ∀ x ∈ t, x ≠ '"' ∧ x ≠ '>') :
    regex_search
      (directiveLine (List.replicate i ' ') (List.replicate j ' ') (List.replicate (k + 1) ' ')
        o p c t) sIncludeRegex = some p := by
  have hsplit : t = t.takeWhile (fun x => !isLineTerminator x)
      ++ t.dropWhile (fun x => !isLineTerminator x) := (List.takeWhile_append_dropWhile _ t).symm
  have h := regex_search_directive i j k o c p (t.takeWhile (fun x => !isLineTerminator x))
    (t.dropWhile (fun x => !isLineTerminator x)) ho hc hp
    (by
      intro x hx
      have hxt : x ∈ t := List.takeWhile_subset _ hx
      have hpx := List.mem_takeWhile_imp hx
      exact ⟨by simpa using hpx, ht x hxt⟩)
    (by
      intro y ys hy
      have := List.head?_dropWhile_not (fun x => !isLineTerminator x) t
      rw [hy] at this
      simpa using this)
  rw [directiveLine]
  rw [hsplit]
  simpa using h

/-- Without a space between `include` and the opening delimiter the line does
    not match. -/
theorem regex_search_no_space (i j : Nat) (x : Char) (rest : Str) (hx : x ≠ ' ') :
    regex_search
      (List.replicate i ' ' ++ '#' :: (List.replicate j ' ' ++ ("include".toList
        ++ x :: rest))) sIncludeRegex = none := by
  have hshape : sIncludeRegex
      = Regex.seq Regex.bol (Regex.seq (Regex.star (Atom.cls [' ']))
        (Regex.seq (Regex.one (Atom.chr '#')) (Regex.seq (Regex.star (Atom.cls [' ']))
        (Regex.seq (Regex.lit "include".toList) (Regex.seq (Regex.plus (Atom.cls [' ']))
        (Regex.seq (Regex.one (Atom.cls ['"', '<']))
          (Regex.cat [Regex.group (Regex.star Atom.dot), Regex.one (Atom.cls ['"', '>']),
            Regex.star Atom.dot]))))))) := rfl
  rw [regex_search_anchored, hshape, Regex.run, Regex.run, if_pos rfl, Regex.run,
    star_spaces_run _ 0 i _ none (by
      intro y ys h
      simp only [List.cons.injEq] at h
      rw [← h.1]
      decide) (by
      intro p cs
      simp [Regex.run, Atom.test]),
    Regex.run, one_run _ _ _ _ _ _ (by decide), Regex.run,
    star_spaces_run _ _ j _ none (by
      intro y ys h
      simp only [String.toList, List.cons_append, List.cons.injEq] at h
      rw [← h.1]
      decide) (by
      intro p cs
      simp [Regex.lit, Regex.cat, Regex.run, Atom.test]),
    Regex.run, lit_run, Regex.run, Regex.run]
  simp [Atom.test, hx]

theorem sIncludeRegex_shape : sIncludeRegex
    = Regex.seq Regex.bol (Regex.seq (Regex.star (Atom.cls [' ']))
      (Regex.seq (Regex.one (Atom.chr '#')) (Regex.seq (Regex.star (Atom.cls [' ']))
      (Regex.seq (Regex.lit "include".toList) (Regex.seq (Regex.plus (Atom.cls [' ']))
      (Regex.seq (Regex.one (Atom.cls ['"', '<']))
        (Regex.cat [Regex.group (Regex.star Atom.dot), Regex.one (Atom.cls ['"', '>']),
          Regex.star Atom.dot]))))))) := rfl

/-- After the leading spaces only `#` can follow. -/
theorem regex_search_bad_indent (i : Nat) (x : Char) (rest : Str) (hx : x ≠ ' ')
    (hx2 : x ≠ '#') :
    regex_search (List.replicate i ' ' ++ x :: rest) sIncludeRegex = none := by
  rw [regex_search_anchored, sIncludeRegex_shape, Regex.run, Regex.run, if_pos rfl, Regex.run,
    star_spaces_run _ 0 i _ none (by
      intro y ys h
      simp only [List.cons.injEq] at h
      rw [← h.1]
      exact hx) (by
      intro p cs
      simp [Regex.run, Atom.test]),
    Regex.run, Regex.run]
  simp [Atom.test, hx2]

/-- After `#` and spaces only `include` can follow. -/
theorem regex_search_bad_gap (i j : Nat) (x : Char) (rest : Str) (hx : x ≠ ' ')
    (hx2 : x ≠ 'i') :
    regex_search (List.replicate i ' ' ++ '#' :: (List.replicate j ' ' ++ x :: rest))
      sIncludeRegex = none := by
  rw [regex_search_anchored, sIncludeRegex_shape, Regex.run, Regex.run, if_pos rfl, Regex.run,
    star_spaces_run _ 0 i _ none (by
      intro y ys h
      simp only [List.cons.injEq] at h
      rw [← h.1]
      decide) (by
      intro p cs
      simp [Regex.run, Atom.test]),
    Regex.run, one_run _ _ _ _ _ _ (by decide), Regex.run,
    star_spaces_run _ _ j _ none (by
      intro y ys h
      simp only [List.cons.injEq] at h
      rw [← h.1]
      exact hx) (by
      intro p cs
      simp [Regex.lit, Regex.cat, Regex.run, Atom.test]),
    Regex.run]
  simp [Regex.lit, Regex.cat, Regex.run, Atom.test, hx2]

/-- After `include` and spaces only an opening delimiter can follow. -/
theorem regex_search_bad_delimiter (i j m : Nat) (x : Char) (rest : Str) (hx : x ≠ ' ')
    (hx2 : x ≠ '"') (hx3 : x ≠ '<') :
    regex_search
      (List.replicate i ' ' ++ '#' :: (List.replicate j ' ' ++ ("include".toList
        ++ (List.replicate m ' ' ++ x :: rest)))) sIncludeRegex = none := by
  cases m with
  | zero => simpa using regex_search_no_space i j x rest hx
  | succ m =>
    rw [regex_search_anchored, sIncludeRegex_shape, Regex.run, Regex.run, if_pos rfl, Regex.run,
      star_spaces_run _ 0 i _ none (by
        intro y ys h
        simp only [List.cons.injEq] at h
        rw [← h.1]
        decide) (by
        intro p cs
        simp [Regex.run, Atom.test]),
      Regex.run, one_run _ _ _ _ _ _ (by decide), Regex.run,
      star_spaces_run _ _ j _ none (by
        intro y ys h
        simp only [String.toList, List.cons_append, List.cons.injEq] at h
        rw [← h.1]
        decide) (by
        intro p cs
        simp [Regex.lit, Regex.cat, Regex.run, Atom.test]),
      Regex.run, lit_run, Regex.run,
      plus_spaces_run _ _ m _ none (by
        intro y ys h
        simp only [List.cons.injEq] at h
        rw [← h.1]
        exact hx) (by
        intro p cs
        simp [Regex.run, Atom.test]),
      Regex.run, Regex.run]
    simp [Atom.test, hx2, hx3]

/-- A gap of spaces and tabs is all spaces, or spaces up to a first tab. -/
theorem gap_cases (g : Str) (hg : ∀ x ∈ g, x = ' ' ∨ x = '\t') :
    (g = List.replicate g.length ' ' ∧ '\t' ∉ g) ∨
      ∃ m rest, g = List.replicate m ' ' ++ '\t' :: rest := by
  induction g with
  | nil => exact Or.inl ⟨rfl, by simp⟩
  | cons x xs ih =>
    rcases hg x (List.mem_cons_self _ _) with rfl | rfl
    · rcases ih (fun y hy => hg y (List.mem_cons_of_mem _ hy)) with ⟨h1, h2⟩ | ⟨m, rest, h⟩
      · refine Or.inl ⟨?_, ?_⟩
        · rw [List.length_cons, List.replicate_succ, ← h1]
        · intro hmem
          rcases List.mem_cons.mp hmem with h | h
          · exact absurd h (by decide)
          · exact h2 h
      · exact Or.inr ⟨m + 1, rest, by rw [h, List.replicate_succ, List.cons_append]⟩
    · exact Or.inr ⟨0, xs, rfl⟩

/-- A tab in one of the three gaps: the line does not match. -/
theorem regex_search_tab (g1 g2 g3 : Str) (o c : Char) (p t : Str)
    (h1 : ∀ x ∈ g1, x = ' ' ∨ x = '\t') (h2 : ∀ x ∈ g2, x = ' ' ∨ x = '\t')
    (h3 : ∀ x ∈ g3, x = ' ' ∨ x = '\t') (htab : '\t' ∈ g1 ++ (g2 ++ g3)) :
    regex_search (directiveLine g1 g2 g3 o p c t) sIncludeRegex = none := by
  rcases gap_cases g1 h1 with ⟨e1, n1⟩ | ⟨m, rest, e1⟩
  · rcases gap_cases g2 h2 with ⟨e2, n2⟩ | ⟨m, rest, e2⟩
    · rcases gap_cases g3 h3 with ⟨_, n3⟩ | ⟨m, rest, e3⟩
      · simp only [List.mem_append] at htab
        rcases htab with h | h | h
        · exact absurd h n1
        · exact absurd h n2
        · exact absurd h n3
      · have h := regex_search_bad_delimiter g1.length g2.length m '\t'
          (rest ++ o :: (p ++ c :: t)) (by decide) (by decide) (by decide)
        rw [directiveLine, e3]
        rw [← e1, ← e2] at h
        simpa using h
    · have h := regex_search_bad_gap g1.length m '\t'
        (rest ++ ("include".toList ++ (g3 ++ o :: (p ++ c :: t)))) (by decide) (by decide)
      rw [directiveLine, e2]
      rw [← e1] at h
      simpa using h
  · have h := regex_search_bad_indent m '\t'
      (rest ++ '#' :: (g2 ++ ("include".toList ++ (g3 ++ o :: (p ++ c :: t)))))
      (by decide) (by decide)
    rw [directiveLine, e1]
    simpa using h

/-! ## Filesystems that differ in lines the loop cannot tell apart -/

theorem sameDirective_refl (a : Str) : SameDirective a a :=
  ⟨rfl, fun _ => rfl⟩

theorem sameDirective_lines_refl (l : List Str) : List.Forall₂ SameDirective l l := by
  induction l with
  | nil => exact List.Forall₂.nil
  | cons a l ih => exact List.Forall₂.cons (sameDirective_refl a) ih

theorem findInSearchPaths_congr {P : Type} (ops : PathOps P) (fs1 fs2 : FileSystem P)
    (hex : ∀ p, fs1.fs_exists p = fs2.fs_exists p) (path : P) (sp : List P) :
    findInSearchPaths ops fs1 path sp = findInSearchPaths ops fs2 path sp := by
  induction sp with
  | nil => rfl
  | cons a more ih => simp only [findInSearchPaths, hex, ih]

theorem findFullPath_congr {P : Type} (ops : PathOps P) (fs1 fs2 : FileSystem P)
    (hex : ∀ p, fs1.fs_exists p = fs2.fs_exists p) (sp : List P) (path parentPath : P) :
    findFullPath ops fs1 sp path parentPath = findFullPath ops fs2 sp path parentPath := by
  simp only [findFullPath, hex, findInSearchPaths_congr ops fs1 fs2 hex]

theorem whileGetline_congr {P : Type} (ops : PathOps P)
    (rec1 rec2 : P → State P → Outcome P) (hrec : ∀ p s, rec1 p s = rec2 p s)
    (l1 l2 : List Str) (h : List.Forall₂ SameDirective l1 l2) (n : Nat) (out : Str)
    (st : State P) :
    whileGetline ops rec1 l1 n out st = whileGetline ops rec2 l2 n out st := by
  induction h generalizing n out st with
  | nil => rfl
  | @cons a b la lb hab _ ih =>
    obtain ⟨hsame, hplain⟩ := hab
    rw [whileGetline, whileGetline, ← hsame]
    cases hm : regex_search a sIncludeRegex with
    | none =>
      rw [← hplain hm]
      exact ih _ _ _
    | some m =>
      simp only []
      rw [← hrec]
      cases rec1 (ops.ofString m) st with
      | none => rfl
      | some x =>
        obtain ⟨x1, s1⟩ := x
        cases x1 with
        | error e => rfl
        | ok text => exact ih _ _ _

/-- Two filesystems with the same existing paths, the same readable paths,
    and files whose lines the loop cannot tell apart give the same outcome
    for every call. -/
theorem parseRecursive_congr {P : Type} [DecidableEq P] (ops : PathOps P)
    (fs1 fs2 : FileSystem P) (sp : List P)
    (hex : ∀ p, fs1.fs_exists p = fs2.fs_exists p)
    (hfiles : ∀ p, (fs1.ifstream p = none ∧ fs2.ifstream p = none) ∨
      ∃ l1 l2, fs1.ifstream p = some l1 ∧ fs2.ifstream p = some l2 ∧
        List.Forall₂ SameDirective l1 l2)
    (fuel : Nat) :
    ∀ (path parentPath : P) (st : State P),
      parseRecursive ops fs1 sp fuel path parentPath st
        = parseRecursive ops fs2 sp fuel path parentPath st := by
  induction fuel with
  | zero =>
    intro path parentPath st
    rfl
  | succ f ih =>
    intro path parentPath st
    rw [parseRecursive, parseRecursive, findFullPath_congr ops fs1 fs2 hex]
    split
    · rfl
    · cases hf : findFullPath ops fs2 sp path parentPath with
      | mk r probes =>
        cases r with
        | error e => rfl
        | ok fullPath =>
          simp only []
          rcases hfiles fullPath with ⟨h1, h2⟩ | ⟨l1, l2, h1, h2, hl⟩
          · rw [h1, h2]
          · rw [h1, h2]
            exact whileGetline_congr ops _ _ (fun p s => ih p _ s) l1 l2 hl _ _ _

/-- Replacing one line of the file at `F` by a line the loop cannot tell
    apart from it does not change the result of `parse`. -/
theorem parse_withFile_congr {P : Type} [DecidableEq P] (ops : PathOps P) (fs : FileSystem P)
    (sp : List P) (F : P) (pre post : List Str) (x y : Str) (hxy : SameDirective x y)
    (fuel : Nat) (root : P) :
    parse ops (withFile fs F (pre ++ x :: post)) sp fuel root
      = parse ops (withFile fs F (pre ++ y :: post)) sp fuel root := by
  rw [parse, parse]
  apply parseRecursive_congr ops (withFile fs F (pre ++ x :: post))
    (withFile fs F (pre ++ y :: post)) sp (fun p => rfl)
  intro p
  by_cases hp : p = F
  · refine Or.inr ⟨pre ++ x :: post, pre ++ y :: post, by simp [withFile, hp],
      by simp [withFile, hp], ?_⟩
    exact List.rel_append (sameDirective_lines_refl pre)
      (List.Forall₂.cons hxy (sameDirective_lines_refl post))
  · cases h : fs.ifstream p with
    | none => exact Or.inl ⟨by simp [withFile, hp, h], by simp [withFile, hp, h]⟩
    | some l =>
      exact Or.inr ⟨l, l, by simp [withFile, hp, h], by simp [withFile, hp, h],
        sameDirective_lines_refl l⟩

/-! ## Quotes and angle brackets -/

/-- C11, the claim as stated fails: the path `a`, carriage return, `b` has no
    double quote and no angle bracket, but neither `#include "..."` nor
    `#include <...>` with it matches the pattern (`.` stops at the carriage
    return), so each line is copied as it is and the two results differ. -/
theorem delimiter_equivalence_counterexample :
    (parse textPaths (withFile fsBase "main.glsl".toList ["#include \"a\rb\"".toList]) []
        2 "main.glsl".toList).map (fun r => r.1)
      = some (.ok "#include \"a\rb\"\n".toList) ∧
    (parse textPaths (withFile fsBase "main.glsl".toList ["#include <a\rb>".toList]) []
        2 "main.glsl".toList).map (fun r => r.1)
      = some (.ok "#include <a\rb>\n".toList) ∧
    parse textPaths (withFile fsBase "main.glsl".toList ["#include \"a\rb\"".toList]) []
        2 "main.glsl".toList
      ≠ parse textPaths (withFile fsBase "main.glsl".toList ["#include <a\rb>".toList]) []
        2 "main.glsl".toList := by
  refine ⟨by rfl, by rfl, ?_⟩
  intro h
  have h2 := congrArg (fun o => o.map (fun r => r.1)) h
  exact absurd h2 (by decide)

/-- C11, amended: for every path `p` without double quote, angle bracket or
    line terminator (carriage return, line feed), the lines `#include "p"`
    and `#include <p>` both match with path `p`, and for every filesystem,
    search-path list, root and fuel, a file with the one line and the same
    file with the other line in its place give the same result of `parse`
    (text or exception, and state). -/
theorem delimiter_equivalence (p : Str) (_hp : ∀ x ∈ p, x ≠ '"' ∧ x ≠ '<' ∧ x ≠ '>')
    (hterm : ∀ x ∈ p, isLineTerminator x = false) :
    regex_search ("#include \"".toList ++ p ++ "\"".toList) sIncludeRegex = some p ∧
    regex_search ("#include <".toList ++ p ++ ">".toList) sIncludeRegex = some p ∧
    ∀ (P : Type) [DecidableEq P] (ops : PathOps P) (fs : FileSystem P) (sp : List P) (F : P)
      (pre post : List Str) (fuel : Nat) (root : P),
      parse ops (withFile fs F (pre ++ ("#include \"".toList ++ p ++ "\"".toList) :: post))
          sp fuel root
        = parse ops (withFile fs F (pre ++ ("#include <".toList ++ p ++ ">".toList) :: post))
          sp fuel root := by
  have h := regex_search_trailing p [] hterm (by simp)
  have hq : regex_search ("#include \"".toList ++ p ++ "\"".toList) sIncludeRegex = some p :=
    h.1
  have ha : regex_search ("#include <".toList ++ p ++ ">".toList) sIncludeRegex = some p :=
    h.2
  refine ⟨hq, ha, ?_⟩
  intro P _ ops fs sp F pre post fuel root
  apply parse_withFile_congr
  refine ⟨by rw [hq, ha], ?_⟩
  intro hnone
  rw [hq] at hnone
  exact absurd hnone (by simp)

/-- C11, amended, at `x.glsl`: both lines inline the same file. -/
theorem delimiter_equivalence_witness :
    regex_search ("#include \"".toList ++ "x.glsl".toList ++ "\"".toList) sIncludeRegex
        = some "x.glsl".toList ∧
    regex_search ("#include <".toList ++ "x.glsl".toList ++ ">".toList) sIncludeRegex
        = some "x.glsl".toList ∧
    parse textPaths (withFile fsBase "main.glsl".toList
        (["a".toList] ++ ("#include \"".toList ++ "x.glsl".toList ++ "\"".toList)
          :: ["b".toList])) [] 2 "main.glsl".toList
      = parse textPaths (withFile fsBase "main.glsl".toList
        (["a".toList] ++ ("#include <".toList ++ "x.glsl".toList ++ ">".toList)
          :: ["b".toList])) [] 2 "main.glsl".toList := by
  have h := delimiter_equivalence "x.glsl".toList (by decide) (by decide)
  exact ⟨h.1, h.2.1, h.2.2 Str textPaths fsBase [] "main.glsl".toList ["a".toList]
    ["b".toList] 2 "main.glsl".toList⟩

/-! ## Spaces in the directive -/

/-- C12, the claim as stated fails: with `i = j = 0`, `k = 1` and the path
    `x`, carriage return, `y.glsl` (no double quote, no angle bracket) the
    line is not recognized; nor is it with more spaces. -/
theorem space_tolerance_counterexample :
    regex_search
        (directiveLine (List.replicate 0 ' ') (List.replicate 0 ' ') (List.replicate 1 ' ')
          '"' "x\ry.glsl".toList '"' []) sIncludeRegex = none ∧
    regex_search
        (directiveLine (List.replicate 2 ' ') (List.replicate 1 ' ') (List.replicate 3 ' ')
          '"' "x\ry.glsl".toList '"' []) sIncludeRegex = none := by
  constructor <;> decide

/-- C12, amended: for all `i`, `j`, `k >= 1` (written `k + 1`) and every path
    `p` without double quote, angle bracket or line terminator, the line of
    `i` spaces, `#`, `j` spaces, `include`, `k` spaces and `"p"` matches with
    path `p`; in every file it can stand for `#include "p"` without changing
    the result of `parse`; and with no space between `include` and the
    delimiter the line does not match. -/
theorem space_tolerance (i j k : Nat) (p : Str)
    (_hp : ∀ x ∈ p, x ≠ '"' ∧ x ≠ '<' ∧ x ≠ '>')
    (hterm : ∀ x ∈ p, isLineTerminator x = false) :
    regex_search
        (directiveLine (List.replicate i ' ') (List.replicate j ' ')
          (List.replicate (k + 1) ' ') '"' p '"' []) sIncludeRegex = some p ∧
    (∀ (P : Type) [DecidableEq P] (ops : PathOps P) (fs : FileSystem P) (sp : List P) (F : P)
      (pre post : List Str) (fuel : Nat) (root : P),
      parse ops (withFile fs F (pre ++
          directiveLine (List.replicate i ' ') (List.replicate j ' ')
            (List.replicate (k + 1) ' ') '"' p '"' [] :: post)) sp fuel root
        = parse ops (withFile fs F (pre ++ ("#include \"".toList ++ p ++ "\"".toList) :: post))
          sp fuel root) ∧
    regex_search
        (directiveLine (List.replicate i ' ') (List.replicate j ' ') [] '"' p '"' [])
        sIncludeRegex = none := by
  have hs := regex_search_directiveLine i j k '"' '"' p [] (Or.inl rfl) (Or.inl rfl) hterm
    (by simp)
  have hq : regex_search ("#include \"".toList ++ p ++ "\"".toList) sIncludeRegex = some p :=
    (regex_search_trailing p [] hterm (by simp)).1
  refine ⟨hs, ?_, ?_⟩
  · intro P _ ops fs sp F pre post fuel root
    apply parse_withFile_congr
    refine ⟨by rw [hs, hq], ?_⟩
    intro hnone
    rw [hs] at hnone
    exact absurd hnone (by simp)
  · have h := regex_search_no_space i j '"' (p ++ ['"']) (by decide)
    simpa [directiveLine] using h

/-- C12, amended, at `#  include   "x.glsl"` (the line of the
    specification), compared with `#include "x.glsl"` and `#include"x.glsl"`. -/
theorem space_tolerance_witness :
    regex_search "#  include   \"x.glsl\"".toList sIncludeRegex = some "x.glsl".toList ∧
    (parse textPaths (withFile fsBase "main.glsl".toList
          ["#  include   \"x.glsl\"".toList]) [] 2 "main.glsl".toList
      = parse textPaths (withFile fsBase "main.glsl".toList
          ["#include \"x.glsl\"".toList]) [] 2 "main.glsl".toList) ∧
    regex_search "#include\"x.glsl\"".toList sIncludeRegex = none := by
  have h := space_tolerance 0 2 2 "x.glsl".toList (by decide) (by decide)
  exact ⟨h.1, h.2.1 Str textPaths fsBase [] "main.glsl".toList [] [] 2 "main.glsl".toList,
    (space_tolerance 0 0 2 "x.glsl".toList (by decide) (by decide)).2.2⟩

/-! ## Mismatched delimiters -/

/-- C13, the claim as stated fails: the line `#include "x.glsl>` has no other
    quote or bracket, yet it matches the pattern with path `x.glsl`; `parse`
    resolves and inlines `x.glsl` (line `c`) and does not copy the line. -/
theorem mismatched_delimiters_counterexample :
    regex_search "#include \"x.glsl>".toList sIncludeRegex = some "x.glsl".toList ∧
    (parse textPaths (withFile fsBase "main.glsl".toList ["#include \"x.glsl>".toList]) []
        2 "main.glsl".toList).map (fun r => r.1)
      = some (.ok "c\n#line 1\n\n".toList) ∧
    (parse textPaths (withFile fsBase "main.glsl".toList ["#include \"x.glsl>".toList]) []
        2 "main.glsl".toList).map (fun r => r.1)
      ≠ some (.ok "#include \"x.glsl>\n".toList) := by
  refine ⟨by decide, by rfl, by decide⟩

/-- C13, amended: a line whose path `x` (without quote, bracket or line
    terminator) is opened by a double quote and closed by `>`, or opened by
    `<` and closed by a double quote, with no other quote or bracket on the
    line, matches the pattern with path `x`: in every file it gives the same
    result of `parse` as `#include "x"`, so `x` is resolved and inlined. -/
theorem mismatched_delimiters (i j k : Nat) (x t : Str)
    (_hx : ∀ y ∈ x, y ≠ '"' ∧ y ≠ '<' ∧ y ≠ '>')
    (hterm : ∀ y ∈ x, isLineTerminator y = false)
    (ht : ∀ y ∈ t, y ≠ '"' ∧ y ≠ '<' ∧ y ≠ '>') :
    regex_search
        (directiveLine (List.replicate i ' ') (List.replicate j ' ')
          (List.replicate (k + 1) ' ') '"' x '>' t) sIncludeRegex = some x ∧
    regex_search
        (directiveLine (List.replicate i ' ') (List.replicate j ' ')
          (List.replicate (k + 1) ' ') '<' x '"' t) sIncludeRegex = some x ∧
    (∀ (P : Type) [DecidableEq P] (ops : PathOps P) (fs : FileSystem P) (sp : List P) (F : P)
      (pre post : List Str) (fuel : Nat) (root : P),
      parse ops (withFile fs F (pre ++
          directiveLine (List.replicate i ' ') (List.replicate j ' ')
            (List.replicate (k + 1) ' ') '"' x '>' t :: post)) sp fuel root
        = parse ops (withFile fs F (pre ++ ("#include \"".toList ++ x ++ "\"".toList) :: post))
          sp fuel root ∧
      parse ops (withFile fs F (pre ++
          directiveLine (List.replicate i ' ') (List.replicate j ' ')
            (List.replicate (k + 1) ' ') '<' x '"' t :: post)) sp fuel root
        = parse ops (withFile fs F (pre ++ ("#include \"".toList ++ x ++ "\"".toList) :: post))
          sp fuel root) := by
  have ht2 : ∀ y ∈ t, y ≠ '"' ∧ y ≠ '>' := fun y hy => ⟨(ht y hy).1, (ht y hy).2.2⟩
  have h1 := regex_search_directiveLine i j k '"' '>' x t (Or.inl rfl) (Or.inr rfl) hterm ht2
  have h2 := regex_search_directiveLine i j k '<' '"' x t (Or.inr rfl) (Or.inl rfl) hterm ht2
  have hq : regex_search ("#include \"".toList ++ x ++ "\"".toList) sIncludeRegex = some x :=
    (regex_search_trailing x [] hterm (by simp)).1
  refine ⟨h1, h2, ?_⟩
  intro P _ ops fs sp F pre post fuel root
  constructor
  · apply parse_withFile_congr
    refine ⟨by rw [h1, hq], ?_⟩
    intro hnone
    rw [h1] at hnone
    exact absurd hnone (by simp)
  · apply parse_withFile_congr
    refine ⟨by rw [h2, hq], ?_⟩
    intro hnone
    rw [h2] at hnone
    exact absurd hnone (by simp)

/-- C13, amended, at `#include "x.glsl>` and `#include <x.glsl"`. -/
theorem mismatched_delimiters_witness :
    regex_search "#include \"x.glsl>".toList sIncludeRegex = some "x.glsl".toList ∧
    regex_search "#include <x.glsl\"".toList sIncludeRegex = some "x.glsl".toList ∧
    parse textPaths (withFile fsBase "main.glsl".toList ["#include <x.glsl\"".toList]) [] 2
        "main.glsl".toList
      = parse textPaths (withFile fsBase "main.glsl".toList ["#include \"x.glsl\"".toList]) []
        2 "main.glsl".toList := by
  have h := mismatched_delimiters 0 0 0 "x.glsl".toList [] (by decide) (by decide) (by decide)
  exact ⟨h.1, h.2.1,
    (h.2.2 Str textPaths fsBase [] "main.glsl".toList [] [] 2 "main.glsl".toList).2⟩

/-! ## Tabs -/

/-- C14, the claim as stated fails: the tab-indented line `#include "x.glsl"`
    does not match the pattern and is copied, while the same line indented
    with a space inlines `x.glsl`; so do a tab after `#` and a tab after
    `include`. -/
theorem tab_whitespace_counterexample :
    regex_search "\t#include \"x.glsl\"".toList sIncludeRegex = none ∧
    regex_search "#\tinclude \"x.glsl\"".toList sIncludeRegex = none ∧
    regex_search "#include\t\"x.glsl\"".toList sIncludeRegex = none ∧
    (parse textPaths (withFile fsBase "main.glsl".toList ["\t#include \"x.glsl\"".toList]) []
        2 "main.glsl".toList).map (fun r => r.1)
      = some (.ok "\t#include \"x.glsl\"\n".toList) ∧
    (parse textPaths (withFile fsBase "main.glsl".toList [" #include \"x.glsl\"".toList]) []
        2 "main.glsl".toList).map (fun r => r.1)
      = some (.ok "c\n#line 1\n\n".toList) := by
  refine ⟨by decide, by decide, by decide, by rfl, by rfl⟩

/-- C14, amended: the gaps of the directive are made of space characters
    only.  A line in which the indentation, the gap between `#` and `include`
    and the gap between `include` and the opening delimiter consist of spaces
    and tabs, with a tab in at least one of them, does not match the pattern:
    the loop copies it followed by a line terminator, makes no recursive call
    and leaves the state as it is (no file is resolved). -/
theorem tab_not_whitespace (g1 g2 g3 : Str) (o c : Char) (p t : Str)
    (h1 : ∀ x ∈ g1, x = ' ' ∨ x = '\t') (h2 : ∀ x ∈ g2, x = ' ' ∨ x = '\t')
    (h3 : ∀ x ∈ g3, x = ' ' ∨ x = '\t') (htab : '\t' ∈ g1 ++ (g2 ++ g3)) :
    regex_search (directiveLine g1 g2 g3 o p c t) sIncludeRegex = none ∧
    ∀ (P : Type) (ops : PathOps P) (recurse : P → State P → Outcome P) (more : List Str)
      (n : Nat) (out : Str) (st : State P),
      whileGetline ops recurse (directiveLine g1 g2 g3 o p c t :: more) n out st
        = whileGetline ops recurse more (n + 1)
            (out ++ directiveLine g1 g2 g3 o p c t ++ ['\n']) st := by
  have h := regex_search_tab g1 g2 g3 o c p t h1 h2 h3 htab
  refine ⟨h, ?_⟩
  intro P ops recurse more n out st
  rw [whileGetline, h]

/-- C14, amended, at the tab-indented `#include "x.glsl"` followed by one
    more line. -/
theorem tab_not_whitespace_witness :
    regex_search "\t#include \"x.glsl\"".toList sIncludeRegex = none ∧
    whileGetline textPaths (fun p s => parseRecursive textPaths fsBase [] 1 p [] s)
        ["\t#include \"x.glsl\"".toList, "b".toList] 1 [] (initState Str)
      = whileGetline textPaths (fun p s => parseRecursive textPaths fsBase [] 1 p [] s)
          ["b".toList] 2 ([] ++ "\t#include \"x.glsl\"".toList ++ ['\n']) (initState Str) := by
  have h := tab_not_whitespace ['\t'] [] [' '] '"' '"' "x.glsl".toList [] (by decide)
    (by decide) (by decide) (by decide)
  exact ⟨h.1, h.2 Str textPaths _ ["b".toList] 1 [] (initState Str)⟩

/-! ## Numbering the lines of the output -/

theorem digitValue_digitChar (k : Nat) (hk : k < 10) : digitValue (Nat.digitChar k) = some k := by
  interval_cases k <;> decide

theorem digitChar_ne_newline (k : Nat) (hk : k < 10) : Nat.digitChar k ≠ '\n' := by
  interval_cases k <;> decide

theorem toDigitsCore_value (fuel : Nat) : ∀ (n : Nat) (ds : Str), n < fuel →
    (Nat.toDigitsCore 10 fuel n ds).foldl
        (fun acc c => acc.bind fun a => (digitValue c).map fun d => 10 * a + d) (some 0)
      = ds.foldl (fun acc c => acc.bind fun a => (digitValue c).map fun d => 10 * a + d)
          (some n) := by
  induction fuel with
  | zero =>
    intro n ds h
    omega
  | succ f ih =>
    intro n ds h
    have hd := digitValue_digitChar (n % 10) (Nat.mod_lt _ (by decide))
    rw [Nat.toDigitsCore]
    split
    · rename_i h0
      have hn : n % 10 = n := by omega
      rw [hn] at hd
      simp [List.foldl, hd, hn]
    · rename_i h0
      rw [ih (n / 10) _ (by omega)]
      have hn : 10 * (n / 10) + n % 10 = n := Nat.div_add_mod n 10
      simp [List.foldl, hd, hn]

theorem toDigitsCore_no_newline (fuel : Nat) : ∀ (n : Nat) (ds : Str), '\n' ∉ ds →
    '\n' ∉ Nat.toDigitsCore 10 fuel n ds := by
  induction fuel with
  | zero =>
    intro n ds h
    simpa [Nat.toDigitsCore] using h
  | succ f ih =>
    intro n ds h
    have hd := digitChar_ne_newline (n % 10) (Nat.mod_lt _ (by decide))
    have hcons : '\n' ∉ Nat.digitChar (n % 10) :: ds := by
      intro hmem
      rcases List.mem_cons.mp hmem with h1 | h1
      · exact hd h1.symm
      · exact h h1
    rw [Nat.toDigitsCore]
    split
    · exact hcons
    · exact ih _ _ hcons

theorem toDigitsCore_ne_nil (fuel : Nat) : ∀ (n : Nat) (ds : Str), ds ≠ [] →
    Nat.toDigitsCore 10 fuel n ds ≠ [] := by
  induction fuel with
  | zero =>
    intro n ds h
    simpa [Nat.toDigitsCore] using h
  | succ f ih =>
    intro n ds _
    rw [Nat.toDigitsCore]
    split
    · simp
    · exact ih _ _ (by simp)

/-- Reading back the decimal digits of `n` gives `n`. -/
theorem decimalValue_toDigits (n : Nat) : decimalValue (Nat.toDigits 10 n) = some n := by
  have hne : Nat.toDigits 10 n ≠ [] := by
    rw [Nat.toDigits, Nat.toDigitsCore]
    split
    · simp
    · exact toDigitsCore_ne_nil _ _ _ (by simp)
  rw [decimalValue, if_neg hne, Nat.toDigits, toDigitsCore_value (n + 1) n [] (by omega)]
  rfl

/-- The line `#line N` written by the loop is read back as the marker for
    `N`. -/
theorem markerNumber_marker (n : Nat) :
    markerNumber ("#line ".toList ++ Nat.toDigits 10 n) = some n := by
  have h1 : "#line ".toList.isPrefixOf ("#line ".toList ++ Nat.toDigits 10 n) = true :=
    List.isPrefixOf_iff_prefix.mpr (List.prefix_append _ _)
  have h2 : ("#line ".toList ++ Nat.toDigits 10 n).drop 6 = Nat.toDigits 10 n :=
    List.drop_left' rfl
  rw [markerNumber, h1, if_pos rfl, h2, decimalValue_toDigits]

theorem marker_no_newline (n : Nat) : '\n' ∉ "#line ".toList ++ Nat.toDigits 10 n := by
  intro h
  rcases List.mem_append.mp h with h | h
  · exact absurd h (by decide)
  · exact toDigitsCore_no_newline _ _ _ (by simp) h

theorem splitAux_line (l : Str) (hl : '\n' ∉ l) (cur rest : Str) :
    splitAux cur (l ++ '\n' :: rest) = (cur ++ l) :: splitAux [] rest := by
  induction l generalizing cur with
  | nil => simp [splitAux]
  | cons c cs ih =>
    have hc : c ≠ '\n' := by
      intro h
      exact hl (by simp [h])
    have hcs : '\n' ∉ cs := fun h => hl (List.mem_cons_of_mem _ h)
    rw [List.cons_append, splitAux, if_neg hc, ih hcs]
    simp

theorem splitAux_append (a : Str) : ∀ (cur b : Str),
    splitAux cur ((a ++ ['\n']) ++ b) = splitAux cur (a ++ ['\n']) ++ splitAux [] b := by
  induction a with
  | nil =>
    intro cur b
    simp [splitAux]
  | cons c cs ih =>
    intro cur b
    show splitAux cur (c :: ((cs ++ ['\n']) ++ b))
      = splitAux cur (c :: (cs ++ ['\n'])) ++ splitAux [] b
    rw [splitAux, splitAux]
    split
    · rw [ih]
      rfl
    · exact ih _ _

theorem textLines_append (a b : Str) (ha : AtLineStart a) :
    textLines (a ++ b) = textLines a ++ textLines b := by
  rcases ha with rfl | ⟨t, rfl⟩
  · simp [textLines, splitAux]
  · exact splitAux_append t [] b

theorem textLines_line (l : Str) (hl : '\n' ∉ l) : textLines (l ++ ['\n']) = [l] := by
  rw [textLines, splitAux_line l hl [] []]
  simp [splitAux]

theorem numberAfter_append (xs ys : List Str) (n : Nat) :
    numberAfter n (xs ++ ys) = numberAfter (numberAfter n xs) ys := by
  induction xs generalizing n with
  | nil => rfl
  | cons x xs ih =>
    rw [List.cons_append, numberAfter, numberAfter]
    cases markerNumber x <;> exact ih _

theorem atLineStart_append (a b : Str) (ha : AtLineStart a) (hb : AtLineStart b) :
    AtLineStart (a ++ b) := by
  rcases hb with rfl | ⟨t, rfl⟩
  · simpa using ha
  · exact Or.inr ⟨a ++ t, by simp⟩

theorem atLineStart_line (a l : Str) : AtLineStart (a ++ l ++ ['\n']) :=
  Or.inr ⟨a ++ l, rfl⟩

/-- After a plain line the number is one more. -/
theorem lineNumberAfter_plain (a l : Str) (ha : AtLineStart a) (hl : '\n' ∉ l)
    (hm : markerNumber l = none) :
    lineNumberAfter (a ++ l ++ ['\n']) = lineNumberAfter a + 1 := by
  rw [lineNumberAfter, lineNumberAfter, List.append_assoc, textLines_append a _ ha,
    textLines_line l hl, numberAfter_append, numberAfter, hm]
  rfl

/-- After the marker `#line n` and the empty line that follows it the number
    is `n + 1`, whatever precedes the marker. -/
theorem lineNumberAfter_marker (a : Str) (n : Nat) (ha : AtLineStart a) :
    lineNumberAfter (a ++ lineMarker n ++ ['\n']) = n + 1 := by
  have h1 : a ++ lineMarker n ++ ['\n']
      = a ++ ((("#line ".toList ++ Nat.toDigits 10 n) ++ ['\n']) ++ ([] ++ ['\n'])) := by
    simp [lineMarker]
  have hM : ∀ m, numberAfter m ["#line ".toList ++ Nat.toDigits 10 n] = n := by
    intro m
    rw [numberAfter, markerNumber_marker]
    rfl
  have hE : ∀ m, numberAfter m [[]] = m + 1 := by
    intro m
    rfl
  rw [lineNumberAfter, h1, textLines_append a _ ha,
    textLines_append _ _ (Or.inr ⟨_, rfl⟩), textLines_line _ (marker_no_newline n),
    textLines_line [] (by simp), numberAfter_append, numberAfter_append, hM, hE]

theorem whileGetline_atLineStart {P : Type} (ops : PathOps P)
    (recurse : P → State P → Outcome P) (lines : List Str) (n : Nat) (out a : Str)
    (st sa : State P) (h : whileGetline ops recurse lines n out st = some (.ok a, sa))
    (hout : AtLineStart out) : AtLineStart a := by
  induction lines generalizing n out st with
  | nil =>
    simp [whileGetline] at h
    rw [← h.1]
    exact hout
  | cons x xs ih =>
    rw [whileGetline] at h
    cases hm : regex_search x sIncludeRegex with
    | none =>
      rw [hm] at h
      exact ih _ _ _ h (atLineStart_line out x)
    | some m =>
      rw [hm] at h
      simp only [] at h
      cases hr : recurse (ops.ofString m) st with
      | none => simp [hr] at h
      | some r =>
        obtain ⟨r1, s1⟩ := r
        cases r1 with
        | error e => simp [hr] at h
        | ok t =>
          rw [hr] at h
          exact ih _ _ _ h (Or.inr ⟨out ++ t ++ lineMarker n, rfl⟩)

/-- The text a call returns is empty or ends with a line feed. -/
theorem parseRecursive_atLineStart {P : Type} [DecidableEq P] (ops : PathOps P)
    (fs : FileSystem P) (sp : List P) (fuel : Nat) (path parentPath : P) (st s' : State P)
    (t : Str) (h : parseRecursive ops fs sp fuel path parentPath st = some (.ok t, s')) :
    AtLineStart t := by
  cases fuel with
  | zero => simp [parseRecursive] at h
  | succ f =>
    by_cases hin : path ∈ st.includeTree
    · rw [parseRecursive_circular ops fs sp f path parentPath st hin] at h
      simp at h
    · cases hf : (findFullPath ops fs sp path parentPath).1 with
      | error e =>
        rw [parseRecursive_unresolved ops fs sp f path parentPath st hin e hf] at h
        simp at h
      | ok L =>
        cases ho : fs.ifstream L with
        | none =>
          rw [parseRecursive_unopened ops fs sp f path parentPath st hin L hf ho] at h
          simp at h
        | some lines =>
          rw [parseRecursive_lines ops fs sp f path parentPath st hin L hf lines ho] at h
          exact whileGetline_atLineStart ops _ lines 1 [] t _ s' h (Or.inl rfl)

/-- The counter of the loop is the number of the next output line, as long
    as the lines copied are no `#line` lines themselves. -/
theorem whileGetline_numbering {P : Type} (ops : PathOps P)
    (recurse : P → State P → Outcome P)
    (hrec : ∀ p s t s', recurse p s = some (.ok t, s') → AtLineStart t)
    (pre : List Str)
    (hclean : ∀ x ∈ pre, regex_search x sIncludeRegex = none →
      markerNumber x = none ∧ '\n' ∉ x)
    (n : Nat) (out a : Str) (st sa : State P)
    (h : whileGetline ops recurse pre n out st = some (.ok a, sa))
    (hout : AtLineStart out) (hnum : lineNumberAfter out = n) :
    AtLineStart a ∧ lineNumberAfter a = n + pre.length := by
  induction pre generalizing n out st with
  | nil =>
    simp [whileGetline] at h
    rw [← h.1]
    exact ⟨hout, by simpa using hnum⟩
  | cons x xs ih =>
    have hxs : ∀ y ∈ xs, regex_search y sIncludeRegex = none →
        markerNumber y = none ∧ '\n' ∉ y := fun y hy => hclean y (List.mem_cons_of_mem _ hy)
    rw [whileGetline] at h
    cases hm : regex_search x sIncludeRegex with
    | none =>
      rw [hm] at h
      obtain ⟨hmark, hnl⟩ := hclean x (List.mem_cons_self _ _) hm
      have h2 := ih hxs _ _ _ h (atLineStart_line out x)
        (by rw [lineNumberAfter_plain out x hout hnl hmark, hnum])
      exact ⟨h2.1, by rw [h2.2, List.length_cons]; omega⟩
    | some m =>
      rw [hm] at h
      simp only [] at h
      cases hr : recurse (ops.ofString m) st with
      | none => simp [hr] at h
      | some r =>
        obtain ⟨r1, s1⟩ := r
        cases r1 with
        | error e => simp [hr] at h
        | ok t =>
          rw [hr] at h
          have ht : AtLineStart (out ++ t) := atLineStart_append out t hout (hrec _ _ _ _ hr)
          have h2 := ih hxs _ _ _ h (Or.inr ⟨out ++ t ++ lineMarker n, rfl⟩)
            (lineNumberAfter_marker (out ++ t) n ht)
          exact ⟨h2.1, by rw [h2.2, List.length_cons]; omega⟩

/-! ## The numbers of the lines of the root -/

/-- C15, the claim as stated fails: the root `#line 100`, `x` has no include
    directive; `parse` copies both lines, and by the convention the line `x`,
    which stood at line 2 of the root, follows a `#line 100` line and is
    numbered 100. -/
theorem root_line_numbering_counterexample :
    (parse textPaths fsLineDirective [] 1 "main.glsl".toList).map (fun r => r.1)
      = some (.ok ("#line 100\n".toList ++ ("x".toList ++ ['\n']) ++ [])) ∧
    lineNumberAfter "#line 100\n".toList = 100 ∧
    lineNumberAfter "#line 100\n".toList ≠ ["#line 100".toList].length + 1 := by
  refine ⟨by rfl, by decide, by decide⟩

/-- C15, amended: in the output of a successful `parse`, a line `l` of the
    root that is no include directive and stood at line `m = length pre + 1`
    is numbered `m` by the convention, provided the lines of the root before
    it that are copied (those that are no include directives) are no `#line`
    lines themselves (and, being lines, hold no line feed): the output is the
    output `a` for the lines before, then `l` and its terminator, then the
    rest; `a` ends a line, and the line after `a` has number `m`, however
    many directives precede and whatever they inlined. -/
theorem root_line_numbering {P : Type} [DecidableEq P] (ops : PathOps P) (fs : FileSystem P)
    (sp : List P) (fuel : Nat) (root rootFull : P) (pre post : List Str) (l out : Str)
    (st' : State P)
    (hok : parse ops fs sp (fuel + 1) root = some (.ok out, st'))
    (hroot : (findFullPath ops fs sp root ops.empty).1 = .ok rootFull)
    (hfile : fs.ifstream rootFull = some (pre ++ l :: post))
    (hl : regex_search l sIncludeRegex = none)
    (hclean : ∀ x ∈ pre, regex_search x sIncludeRegex = none →
      markerNumber x = none ∧ '\n' ∉ x) :
    ∃ (a b : Str) (sa : State P),
      whileGetline ops
          (fun p s => parseRecursive ops fs sp fuel p (ops.parent_path rootFull) s) pre 1 []
          (entered (initState P) root
            ((findFullPath ops fs sp root ops.empty).2 ++ [Event.openFile rootFull]))
        = some (.ok a, sa) ∧
      out = a ++ (l ++ ['\n']) ++ b ∧
      AtLineStart a ∧
      lineNumberAfter a = pre.length + 1 := by
  have hr : root ∉ (initState P).includeTree := by simp [initState]
  rw [parse, parseRecursive_lines ops fs sp fuel root ops.empty (initState P) hr rootFull hroot
    _ hfile, whileGetline_append] at hok
  cases hpre : whileGetline ops
      (fun p s => parseRecursive ops fs sp fuel p (ops.parent_path rootFull) s) pre 1 []
      (entered (initState P) root
        ((findFullPath ops fs sp root ops.empty).2 ++ [Event.openFile rootFull])) with
  | none => simp [hpre] at hok
  | some r =>
    obtain ⟨r1, sa⟩ := r
    cases r1 with
    | error e => simp [hpre] at hok
    | ok a =>
      rw [hpre] at hok
      simp only [] at hok
      rw [whileGetline, hl] at hok
      simp only [] at hok
      rw [whileGetline_output] at hok
      cases hpost : whileGetline ops
          (fun p s => parseRecursive ops fs sp fuel p (ops.parent_path rootFull) s) post
          (1 + pre.length + 1) [] sa with
      | none => simp [hpost] at hok
      | some r =>
        obtain ⟨r1, s2⟩ := r
        cases r1 with
        | error e => simp [hpost, Except.map] at hok
        | ok b =>
          simp [hpost, Except.map] at hok
          have hnum := whileGetline_numbering ops _
            (fun p s t s' h => parseRecursive_atLineStart ops fs sp fuel p _ s s' t h)
            pre hclean 1 [] a _ sa hpre (Or.inl rfl) rfl
          refine ⟨a, b, sa, rfl, ?_, hnum.1, ?_⟩
          · rw [← hok.1]
            simp
          · rw [hnum.2]
            omega

/-- C15, amended, at `root.glsl`: its fifth line `z` comes after two
    directives, the second of which inlined three lines; it is numbered 5. -/
theorem root_line_numbering_witness :
    ∃ (a b : Str) (sa : State Str),
      whileGetline textPaths (fun p s => parseRecursive textPaths fsMarkers [] 1 p [] s)
          ["x".toList, includeLib, "y".toList, "#include <two.glsl>".toList] 1 []
          (entered (initState Str) "root.glsl".toList
            ((findFullPath textPaths fsMarkers [] "root.glsl".toList []).2
              ++ [Event.openFile "root.glsl".toList]))
        = some (.ok a, sa) ∧
      "x\nc\n#line 2\n\ny\np\nq\nr\n#line 4\n\nz\n".toList = a ++ ("z".toList ++ ['\n']) ++ b ∧
      AtLineStart a ∧
      lineNumberAfter a
        = ["x".toList, includeLib, "y".toList, "#include <two.glsl>".toList].length + 1 :=
  root_line_numbering textPaths fsMarkers [] 1 "root.glsl".toList "root.glsl".toList
    ["x".toList, includeLib, "y".toList, "#include <two.glsl>".toList] [] "z".toList
    "x\nc\n#line 2\n\ny\np\nq\nr\n#line 4\n\nz\n".toList _ (by rfl) (by decide) (by decide)
    (by decide) (by decide)

end ShaderPreprocessor
